import Mathlib

/-!
Verification of the Cab_System fleet-dispatch core against its specification.

The Python sources are shallowly embedded:
* floats become real numbers (`ℝ`), with `float('inf')` handled by working in
  `EReal` where the code mixes finite and infinite values;
* `math.atan2 y x` is `Complex.arg ⟨x, y⟩` (the same function on all of ℝ²);
* mutable state (the sqlite tables, the `active_cab_targets` dict, the
  websocket client list) is passed explicitly and updated functionally;
* the one unbounded loop (Dijkstra's priority-queue loop, whose termination
  Python gets from nonnegative weights) is given an explicit fuel that bounds
  the number of pop iterations; every property proved about it is proved for
  every fuel value, so it holds in particular for the terminating run.
-/

namespace CabSystem

noncomputable section

open Real

/-- `math.atan2 y x`, which agrees with the complex argument of `x + y*I`
everywhere (including `atan2 0 0 = 0 = Complex.arg 0`). -/
def atan2 (y x : ℝ) : ℝ := Complex.arg ⟨x, y⟩

/-- `math.radians`: degrees to radians. -/
def radians (x : ℝ) : ℝ := x * (Real.pi / 180)

/-- `dsa/utils.py calculate_distance`: Haversine distance in kilometres on an
Earth radius of 6371 km. -/
def calculate_distance (lat1 lon1 lat2 lon2 : ℝ) : ℝ :=
  let R : ℝ := 6371
  let lat1_rad := radians lat1
  let lon1_rad := radians lon1
  let lat2_rad := radians lat2
  let lon2_rad := radians lon2
  let dlon := lon2_rad - lon1_rad
  let dlat := lat2_rad - lat1_rad
  let a := Real.sin (dlat / 2) ^ 2 +
    Real.cos lat1_rad * Real.cos lat2_rad * Real.sin (dlon / 2) ^ 2
  let c := 2 * atan2 (Real.sqrt a) (Real.sqrt (1 - a))
  R * c

/-- `dsa/utils.py calculate_fare`: base fare plus a per-kilometre rate. -/
def calculate_fare (distance : ℝ) : ℝ :=
  let BASE_FARE : ℝ := 50
  let PER_KM_RATE : ℝ := 15
  BASE_FARE + PER_KM_RATE * distance

/-- `dsa/ride_sharing.py RideSharing.calculate_fare_division`: fare split
proportional to each rider's leg distance, `(0, 0)` when the total is zero. -/
def calculate_fare_division (primary_ride_distance secondary_ride_distance total_fare : ℝ) :
    ℝ × ℝ :=
  let total_shared_distance := primary_ride_distance + secondary_ride_distance
  if total_shared_distance = 0 then (0, 0)
  else (primary_ride_distance / total_shared_distance * total_fare,
    secondary_ride_distance / total_shared_distance * total_fare)

end

/-- One websocket subscriber of `app.py`'s `clients` list. `closed` models
`ws.closed`; `fails` models `ws.send` raising for a connection that is not yet
marked closed. Send success depends only on the connection, not the payload. -/
structure Client where
  id : Nat
  closed : Bool
  fails : Bool
deriving DecidableEq, Repr

/-- `app.py broadcast_to_all`: iterate over a snapshot (`clients[:]`) of the
subscriber list; a closed connection, or one whose send raises, is removed
(`list.remove`: first occurrence) from the live list and everyone else is sent
the message. Returns the live list after the pass and the ids delivered to,
in order. The nested `try/except` around `remove` only guards a repeated
removal, which `List.erase` already treats as a no-op. -/
def broadcast_to_all (clients : List Client) : List Client × List Nat :=
  clients.foldl
    (fun st c =>
      if c.closed then (st.1.erase c, st.2)
      else if c.fails then (st.1.erase c, st.2)
      else (st.1, st.2 ++ [c.id]))
    (clients, [])

/-- The subscribers a broadcast pass keeps and delivers to. -/
def Client.good (c : Client) : Bool := !c.closed && !c.fails

noncomputable section

/-- One row of the `cabs` table, as the dicts `db.get_all_cabs()` returns. -/
structure Cab where
  cab_id : Nat
  name : String
  latitude : ℝ
  longitude : ℝ
  status : String

/-- One row of the `rides` table (its coordinate columns are `REAL NOT NULL`),
with the fields both `get_ride_by_cab_id` and `get_active_rides` expose. -/
structure Ride where
  cab_id : Nat
  start_latitude : ℝ
  start_longitude : ℝ
  end_latitude : ℝ
  end_longitude : ℝ

/-- One value of the `active_cab_targets` dict of `app.py`. -/
structure Target where
  target_lat : ℝ
  target_lng : ℝ
  phase : String

/-- One message pushed to the websocket subscribers,
`{cab_id, latitude, longitude, status}`. -/
structure Event where
  cab_id : Nat
  latitude : ℝ
  longitude : ℝ
  status : String

/-- The state one tick of `simulate_cab_movements` reads and writes: the
`cabs` table, the `active_cab_targets` dict (an association list looked up on
its first binding, like the dict), and the stream of emitted events. -/
structure TickState where
  cabs : List Cab
  targets : List (Nat × Target)
  events : List Event

/-- Dict assignment `active_cab_targets[cab_id] = t`. -/
def setTarget (ts : List (Nat × Target)) (id : Nat) (t : Target) : List (Nat × Target) :=
  (id, t) :: ts

/-- Dict removal `active_cab_targets.pop(cab_id, None)`. -/
def popTarget (ts : List (Nat × Target)) (id : Nat) : List (Nat × Target) :=
  ts.filter fun p => p.1 ≠ id

/-- `db_utils.py update_cab_status`: set the status of the rows with this
`cab_id`, and the position too when both coordinates are given. -/
def update_cab_status (cabs : List Cab) (id : Nat) (status : String)
    (latitude longitude : Option ℝ) : List Cab :=
  cabs.map fun c =>
    if c.cab_id = id then
      match latitude, longitude with
      | some lat, some lon => { c with status := status, latitude := lat, longitude := lon }
      | _, _ => { c with status := status }
    else c

/-- `db_utils.py update_cab_location`: set the position of the rows with this
`cab_id`, and the status too when one is given. -/
def update_cab_location (cabs : List Cab) (id : Nat) (latitude longitude : ℝ)
    (status : Option String) : List Cab :=
  cabs.map fun c =>
    if c.cab_id = id then
      match status with
      | some s => { c with latitude := latitude, longitude := longitude, status := s }
      | none => { c with latitude := latitude, longitude := longitude }
    else c

/-- `db_utils.py get_ride_by_cab_id`: the most recent ride of a cab. The model
keeps the ride list most-recent-first, so the sqlite `ORDER BY timestamp DESC
LIMIT 1` is the first match. -/
def get_ride_by_cab_id (rides : List Ride) (id : Nat) : Option Ride :=
  rides.find? fun r => r.cab_id == id

/-- The status of the first `cabs` row with this id. -/
def cabStatusOf (cabs : List Cab) (id : Nat) : Option String :=
  (cabs.find? fun c => c.cab_id == id).map Cab.status

def ARRIVE_THRESHOLD : ℝ := 0.00025

/-- The body of the per-cab loop of `app.py simulate_cab_movements`, for one
cab of the tick's snapshot. `drift` is the pair of `random.uniform` draws the
idle branch consumes. Arrival broadcasts and the `updates` batch are both
recorded in `events`; the `try` around `float(...)` on the `REAL NOT NULL`
ride columns cannot fail and Python's truthiness of those floats is `≠ 0`. -/
def processCab (rides : List Ride) (st : TickState) (cab : Cab) (drift : ℝ × ℝ) :
    TickState :=
  let lat := cab.latitude
  let lon := cab.longitude
  let status := cab.status
  match List.lookup cab.cab_id st.targets with
  | some target =>
    let target_lat := target.target_lat
    let target_lng := target.target_lng
    let phase := target.phase
    let dlat := target_lat - lat
    let dlon := target_lng - lon
    let dist := Real.sqrt (dlat ^ 2 + dlon ^ 2)
    if dist < ARRIVE_THRESHOLD then
      if phase = "to_pickup" then
        let cabs1 := update_cab_status st.cabs cab.cab_id "Arrived"
          (some target_lat) (some target_lng)
        let events1 := st.events ++ [⟨cab.cab_id, target_lat, target_lng, "Arrived"⟩]
        match get_ride_by_cab_id rides cab.cab_id with
        | some ride =>
          if ride.end_latitude ≠ 0 ∧ ride.end_longitude ≠ 0 then
            { cabs := update_cab_status cabs1 cab.cab_id "OnTrip"
                (some target_lat) (some target_lng),
              targets := setTarget st.targets cab.cab_id
                ⟨ride.end_latitude, ride.end_longitude, "to_destination"⟩,
              events := events1 }
          else
            { cabs := update_cab_status cabs1 cab.cab_id "Available" none none,
              targets := popTarget st.targets cab.cab_id,
              events := events1 ++ [⟨cab.cab_id, lat, lon, "Available"⟩] }
        | none =>
          { cabs := update_cab_status cabs1 cab.cab_id "Available" none none,
            targets := popTarget st.targets cab.cab_id,
            events := events1 ++ [⟨cab.cab_id, lat, lon, "Available"⟩] }
      else if phase = "to_destination" then
        { cabs := update_cab_location
            (update_cab_status st.cabs cab.cab_id "Arrived"
              (some target_lat) (some target_lng))
            cab.cab_id target_lat target_lng none,
          targets := st.targets,
          events := st.events ++ [⟨cab.cab_id, target_lat, target_lng, "ArrivedDestination"⟩] }
      else st
    else
      let step : ℝ := 0.00025
      let lat' := lat + step * (dlat / dist)
      let lon' := lon + step * (dlon / dist)
      let broadcast_status := if phase = "to_pickup" then "Enroute" else "OnTrip"
      { cabs := update_cab_location st.cabs cab.cab_id lat' lon' (some status),
        targets := st.targets,
        events := st.events ++ [⟨cab.cab_id, lat', lon', broadcast_status⟩] }
  | none =>
    if status = "Available" then
      let lat' := lat + drift.1
      let lon' := lon + drift.2
      { cabs := update_cab_location st.cabs cab.cab_id lat' lon' none,
        targets := st.targets,
        events := st.events ++ [⟨cab.cab_id, lat', lon', status⟩] }
    else
      { cabs := st.cabs,
        targets := st.targets,
        events := st.events ++ [⟨cab.cab_id, lat, lon, status⟩] }

/-- One whole tick: the loop over the snapshot of the cabs table, threading
the state through `processCab`; `drift` supplies the random draws per cab. -/
def simulate_tick (rides : List Ride) (st : TickState) (drift : Nat → ℝ × ℝ) :
    TickState :=
  st.cabs.foldl (fun acc cab => processCab rides acc cab (drift cab.cab_id)) st

/-- One element of `MinHeap.heap` in `dsa/heap_utils.py`:
the dict `{'cab': cab, 'distance': distance}`. -/
structure HeapNode where
  cab : Cab
  distance : ℝ

/-- Indexing into the heap list. The Python code only ever indexes in range
(`heapify_up`/`heapify_down` guard their indices); out-of-range reads fall
back to a dummy node. -/
def nthNode (l : List HeapNode) (i : Nat) : HeapNode :=
  l.getD i ⟨⟨0, "", 0, 0, ""⟩, 0⟩

/-- `MinHeap.swap`. -/
def heap_swap (l : List HeapNode) (i j : Nat) : List HeapNode :=
  (l.set i (nthNode l j)).set j (nthNode l i)

/-- `MinHeap.heapify_up`: bubble index `i` up while it is smaller than its
parent `(i - 1) // 2`; for `i = i' + 1` the parent is `i' / 2`. -/
def heapify_up : List HeapNode → Nat → List HeapNode
  | l, 0 => l
  | l, i + 1 =>
    if (nthNode l (i / 2)).distance > (nthNode l (i + 1)).distance then
      heapify_up (heap_swap l (i + 1) (i / 2)) (i / 2)
    else l
termination_by _ i => i
decreasing_by exact Nat.lt_succ_of_le (Nat.div_le_self i 2)

/-- The index `min_index` that one pass of `MinHeap.heapify_down` picks: the
smaller in-range child if it beats the current node, else the node itself. -/
def heapDownTarget (l : List HeapNode) (i : Nat) : Nat :=
  if 2 * i + 2 < l.length ∧ (nthNode l (2 * i + 2)).distance <
      (nthNode l (if 2 * i + 1 < l.length ∧
        (nthNode l (2 * i + 1)).distance < (nthNode l i).distance
        then 2 * i + 1 else i)).distance
  then 2 * i + 2
  else if 2 * i + 1 < l.length ∧
      (nthNode l (2 * i + 1)).distance < (nthNode l i).distance
    then 2 * i + 1 else i

/-- `MinHeap.heapify_down` (when it runs, `self.size == len(self.heap)`). -/
def heapify_down (l : List HeapNode) (i : Nat) : List HeapNode :=
  if h : i ≠ heapDownTarget l i then
    heapify_down (heap_swap l i (heapDownTarget l i)) (heapDownTarget l i)
  else l
termination_by l.length - i
decreasing_by
  rw [show (heap_swap l i (heapDownTarget l i)).length = l.length by
    simp [heap_swap, List.length_set]]
  revert h
  unfold heapDownTarget
  split_ifs with h1 h2 h3 <;> intro h <;>
    first
    | exact absurd rfl h
    | (obtain ⟨hl, -⟩ := h1
       omega)
    | (obtain ⟨hl, -⟩ := h2
       omega)
    | (obtain ⟨hl, -⟩ := h3
       omega)

/-- `MinHeap.insert`: append, then heapify up from the last index
(`self.size - 1`, which is the old length). -/
def heap_insert (l : List HeapNode) (cab : Cab) (distance : ℝ) : List HeapNode :=
  heapify_up (l ++ [⟨cab, distance⟩]) l.length

/-- `MinHeap.extract_min`: `None` on an empty heap; otherwise take the root,
move the last node to the root, shrink, and heapify down when nonempty. -/
def extract_min (l : List HeapNode) : Option HeapNode × List HeapNode :=
  match l with
  | [] => (none, [])
  | _ :: _ =>
    let min_node := nthNode l 0
    let l1 := (l.set 0 (nthNode l (l.length - 1))).dropLast
    (some min_node, if 0 < l1.length then heapify_down l1 0 else l1)

/-- The extraction loop of `CabFinder.find_nearest_cab`: pop up to `num_cabs`
times, stopping early when the heap is exhausted. -/
def extract_loop : Nat → List HeapNode → List (Cab × ℝ)
  | 0, _ => []
  | n + 1, h =>
    match extract_min h with
    | (some e, h') => (e.cab, e.distance) :: extract_loop n h'
    | (none, _) => []

/-- `CabFinder.find_nearest_cab`: insert every `Available` cab keyed by its
Haversine distance to the user, then pop up to `num_cabs` minima. -/
def find_nearest_cab (cabs : List Cab) (user_x user_y : ℝ) (num_cabs : Nat) :
    List (Cab × ℝ) :=
  let min_heap := cabs.foldl
    (fun h cab =>
      if cab.status = "Available" then
        heap_insert h cab (calculate_distance user_x user_y cab.latitude cab.longitude)
      else h)
    []
  extract_loop num_cabs min_heap

/-- The binary min-heap invariant on the array encoding: every in-range child
is at least its parent. -/
def IsHeap (l : List HeapNode) : Prop :=
  ∀ i j, (j = 2 * i + 1 ∨ j = 2 * i + 2) → j < l.length →
    (nthNode l i).distance ≤ (nthNode l j).distance

/-- Invariant of the `heapify_up` walk at index `i`: every parent-child pair
except the one into `i` is ordered, and the children of `i` are already at
least `i`'s parent. -/
def UpInv (l : List HeapNode) (i : Nat) : Prop :=
  (∀ p c, (c = 2 * p + 1 ∨ c = 2 * p + 2) → c < l.length → c ≠ i →
    (nthNode l p).distance ≤ (nthNode l c).distance) ∧
  (∀ c, (c = 2 * i + 1 ∨ c = 2 * i + 2) → c < l.length → 0 < i →
    (nthNode l ((i - 1) / 2)).distance ≤ (nthNode l c).distance)

/-- A graph vertex of `dsa/graph.py`: a `(latitude, longitude)` tuple. -/
abbrev Pt := ℝ × ℝ

/-- The `Graph` of `dsa/graph.py`: `verts` is the insertion-ordered key list of
the `vertices` dict, `adj` the neighbor lists, `w` the `edges` weights (a key
never written reads as the default, which no run ever consults). -/
structure Graph where
  verts : List Pt
  adj : Pt → List Pt
  w : Pt → Pt → ℝ

/-- `Graph.__init__`. -/
def Graph.empty : Graph :=
  { verts := [], adj := fun _ => [], w := fun _ _ => 0 }

/-- `Graph.add_vertex`. -/
def add_vertex (g : Graph) (v : Pt) : Graph :=
  if v ∈ g.verts then g else { g with verts := g.verts ++ [v] }

/-- `Graph.add_edge`: ensure both endpoints, default the weight to the
Haversine distance, and record the edge in both directions (appending to the
adjacency lists, so a self-edge is appended twice, as in Python). -/
def add_edge (g : Graph) (v1 v2 : Pt) (weight : Option ℝ) : Graph :=
  let g1 := add_vertex (add_vertex g v1) v2
  let wt := weight.getD (calculate_distance v1.1 v1.2 v2.1 v2.2)
  let adj1 : Pt → List Pt := fun u => if u = v1 then g1.adj u ++ [v2] else g1.adj u
  let adj2 : Pt → List Pt := fun u => if u = v2 then adj1 u ++ [v1] else adj1 u
  let w1 : Pt → Pt → ℝ := fun a b => if a = v1 ∧ b = v2 then wt else g1.w a b
  let w2 : Pt → Pt → ℝ := fun a b => if a = v2 ∧ b = v1 then wt else w1 a b
  { verts := g1.verts, adj := adj2, w := w2 }

/-- The state of `Graph.dijkstra`'s loop: the `distances` dict (missing
vertices never being read), the `previous` dict, and the `heapq` list. -/
structure DState where
  dist : Pt → EReal
  prev : Pt → Option Pt
  pq : List (EReal × Pt)

/-- The strict order `heapq` uses on its `(distance, vertex)` tuples: Python's
lexicographic tuple comparison. -/
def pqLt (a b : EReal × Pt) : Prop :=
  a.1 < b.1 ∨ (a.1 = b.1 ∧ (a.2.1 < b.2.1 ∨ (a.2.1 = b.2.1 ∧ a.2.2 < b.2.2)))

instance (a b : EReal × Pt) : Decidable (pqLt a b) := by
  unfold pqLt
  infer_instance

def minEntry : (EReal × Pt) → List (EReal × Pt) → EReal × Pt
  | e, [] => e
  | e, x :: xs => minEntry (if pqLt x e then x else e) xs

/-- `heapq.heappop`: remove and return a least tuple of the queue. Tuples that
compare equal under the total lexicographic order are identical values, so
removing the first occurrence of the minimum is exact. -/
def popMin (pq : List (EReal × Pt)) : Option ((EReal × Pt) × List (EReal × Pt)) :=
  match pq with
  | [] => none
  | x :: xs =>
    let m := minEntry x xs
    some (m, (x :: xs).erase m)

/-- The `for neighbor in self.vertices[current_vertex]` relaxation loop of
`Graph.dijkstra`, for a popped entry `(d, u)`. -/
def relaxNeighbors (g : Graph) (u : Pt) (d : EReal) : List Pt → DState → DState
  | [], s => s
  | v :: vs, s =>
    let distance := d + ((g.w u v : ℝ) : EReal)
    if distance < s.dist v then
      relaxNeighbors g u d vs
        { dist := fun x => if x = v then distance else s.dist x,
          prev := fun x => if x = v then some u else s.prev x,
          pq := s.pq ++ [(distance, v)] }
    else relaxNeighbors g u d vs s

/-- One iteration of the `while priority_queue:` loop; `none` means the loop
exits (queue empty, or the end vertex was popped and the code breaks). -/
def dijkstraStep (g : Graph) (end_vertex : Pt) (s : DState) : Option DState :=
  match popMin s.pq with
  | none => none
  | some ((d, u), rest) =>
    if u = end_vertex then none
    else if d > s.dist u then some { s with pq := rest }
    else some (relaxNeighbors g u d (g.adj u) { s with pq := rest })

/-- Run the loop for at most `fuel` iterations, stopping at a loop exit. -/
def dijkstraRun (g : Graph) (end_vertex : Pt) : Nat → DState → DState
  | 0, s => s
  | n + 1, s =>
    match dijkstraStep g end_vertex s with
    | none => s
    | some s' => dijkstraRun g end_vertex n s'

/-- `distances`/`previous`/`priority_queue` as `Graph.dijkstra` initializes
them. -/
def initState (start_vertex : Pt) : DState :=
  { dist := fun v => if v = start_vertex then 0 else ⊤,
    prev := fun _ => none,
    pq := [(0, start_vertex)] }

/-- The path reconstruction loop `while current is not None`, with a fuel
bound on the predecessor chain (in every actual run the chain visits distinct
vertices, so `|vertices| + 1` steps suffice). -/
def buildPath (prev : Pt → Option Pt) : Option Pt → Nat → List Pt
  | none, _ => []
  | some v, 0 => [v]
  | some v, n + 1 => v :: buildPath prev (prev v) n

/-- Fuel for the main loop: the lazy-deletion Dijkstra on nonnegative weights
pushes at most one entry per directed edge, so pops are bounded by
`1 + edges`; the bound below dominates that. -/
def loopFuel (g : Graph) : Nat :=
  g.verts.length * g.verts.length + (g.verts.map fun v => (g.adj v).length).sum + 1

/-- `Graph.dijkstra` with the loop fuel made explicit. The properties proved
below hold for every fuel, hence for the terminating Python run. -/
def dijkstraWithFuel (g : Graph) (start_vertex end_vertex : Pt) (fuel : Nat) :
    EReal × List Pt :=
  if start_vertex ∉ g.verts ∨ end_vertex ∉ g.verts then (⊤, [])
  else
    let final := dijkstraRun g end_vertex fuel (initState start_vertex)
    (final.dist end_vertex,
      (buildPath final.prev (some end_vertex) (g.verts.length + 1)).reverse)

/-- `Graph.dijkstra`. -/
def Graph.dijkstra (g : Graph) (start_vertex end_vertex : Pt) : EReal × List Pt :=
  dijkstraWithFuel g start_vertex end_vertex (loopFuel g)

/-- Edges of the constructed graph, as a relation. -/
def Adj (g : Graph) (u v : Pt) : Prop := v ∈ g.adj u

/-- `v` can be reached from `u` along recorded adjacencies. -/
def Reachable (g : Graph) (u v : Pt) : Prop := Relation.ReflTransGen (Adj g) u v

/-- The invariant of Dijkstra's loop that settles the unreachable case: queue
keys are finite, every queued key bounds the recorded distance of its vertex,
and only vertices reachable from the start ever get a finite distance or a
predecessor. -/
def DInv (g : Graph) (start_vertex : Pt) (s : DState) : Prop :=
  (∀ p ∈ s.pq, ∃ r : ℝ, p.1 = (r : EReal)) ∧
  (∀ p ∈ s.pq, s.dist p.2 ≤ p.1) ∧
  (∀ v, s.dist v ≠ ⊤ → Reachable g start_vertex v) ∧
  (∀ v u, s.prev v = some u → Reachable g start_vertex v)

/-- `RouteOptimizer.create_grid_graph`. `int()` truncation agrees with the
floor for the nonnegative quotients of every call in the repository. -/
def create_grid_graph (min_lat max_lat min_lon max_lon lat_step lon_step : ℝ) :
    Graph :=
  let latitudes := (List.range (⌊(max_lat - min_lat) / lat_step⌋ + 1).toNat).map
    fun i => min_lat + i * lat_step
  let longitudes := (List.range (⌊(max_lon - min_lon) / lon_step⌋ + 1).toNat).map
    fun i => min_lon + i * lon_step
  let g0 := latitudes.foldl
    (fun g lat => longitudes.foldl (fun g lon => add_vertex g (lat, lon)) g)
    Graph.empty
  (List.range latitudes.length).foldl
    (fun g i =>
      (List.range longitudes.length).foldl
        (fun g j =>
          let current_vertex : Pt := (latitudes.getD i 0, longitudes.getD j 0)
          let g1 := if j + 1 < longitudes.length then
              add_edge g current_vertex (latitudes.getD i 0, longitudes.getD (j + 1) 0) none
            else g
          let g2 := if i + 1 < latitudes.length then
              add_edge g1 current_vertex (latitudes.getD (i + 1) 0, longitudes.getD j 0) none
            else g1
          if i + 1 < latitudes.length ∧ j + 1 < longitudes.length then
            add_edge g2 current_vertex
              (latitudes.getD (i + 1) 0, longitudes.getD (j + 1) 0) none
          else g2)
        g)
    g0

/-- `RouteOptimizer.find_shortest_path` (Python defaults: `lat_step = 0.01`,
`lon_step = 0.01`, `buffer = 0.05`). -/
def find_shortest_path (start_latitude start_longitude end_latitude end_longitude
    lat_step lon_step buffer : ℝ) : EReal × List Pt :=
  let min_lat := min start_latitude end_latitude - buffer
  let max_lat := max start_latitude end_latitude + buffer
  let min_lon := min start_longitude end_longitude - buffer
  let max_lon := max start_longitude end_longitude + buffer
  let graph := create_grid_graph min_lat max_lat min_lon max_lon lat_step lon_step
  let start_vertex : Pt := (start_latitude, start_longitude)
  let end_vertex : Pt := (end_latitude, end_longitude)
  let g1 := add_vertex graph start_vertex
  let g2 := add_vertex g1 end_vertex
  let latitudes := (List.range (⌊(max_lat - min_lat) / lat_step⌋ + 1).toNat).map
    fun i => min_lat + i * lat_step
  let longitudes := (List.range (⌊(max_lon - min_lon) / lon_step⌋ + 1).toNat).map
    fun i => min_lon + i * lon_step
  let g3 := latitudes.foldl
    (fun g lat =>
      longitudes.foldl
        (fun g lon =>
          let g' := if calculate_distance start_latitude start_longitude lat lon <
              lat_step * 2 then add_edge g start_vertex (lat, lon) none else g
          if calculate_distance end_latitude end_longitude lat lon < lat_step * 2
            then add_edge g' end_vertex (lat, lon) none else g')
        g)
    g2
  g3.dijkstra start_vertex end_vertex

/-- `original_cab_to_current_dropoff_dist` in `find_shared_cab`: the grid
route from the cab's position to the current passenger's drop-off, at the
Python defaults `lat_step = lon_step = 0.01`, `buffer = 0.05`. -/
def origSoloCost (cab : Cab) (ride : Ride) : EReal :=
  (find_shortest_path cab.latitude cab.longitude
    ride.end_latitude ride.end_longitude 0.01 0.01 0.05).1

/-- `combined_route_distance`: the cheaper of the two insertion orders
(cab → new pickup → current drop-off → new drop-off, and
cab → current drop-off → new pickup → new drop-off). -/
def combinedRouteCost (cab : Cab) (ride : Ride) (us_lat us_lon ue_lat ue_lon : ℝ) :
    EReal :=
  let path1 := (find_shortest_path cab.latitude cab.longitude us_lat us_lon
      0.01 0.01 0.05).1
    + ((calculate_distance us_lat us_lon ride.end_latitude ride.end_longitude : ℝ) : EReal)
    + ((calculate_distance ride.end_latitude ride.end_longitude ue_lat ue_lon : ℝ) : EReal)
  let path2 := (find_shortest_path cab.latitude cab.longitude
      ride.end_latitude ride.end_longitude 0.01 0.01 0.05).1
    + ((calculate_distance ride.end_latitude ride.end_longitude us_lat us_lon : ℝ) : EReal)
    + ((calculate_distance us_lat us_lon ue_lat ue_lon : ℝ) : EReal)
  min path1 path2

/-- `new_user_trip_in_shared_cab` (the code's simplification: the rider's
direct distance). -/
def newUserTripInSharedCab (us_lat us_lon ue_lat ue_lon : ℝ) : ℝ :=
  calculate_distance us_lat us_lon ue_lat ue_lon

/-- `pickup_distance_for_new_user`: cab position to the new rider's start. -/
def pickupDistanceForNewUser (cab : Cab) (us_lat us_lon : ℝ) : ℝ :=
  calculate_distance cab.latitude cab.longitude us_lat us_lon

/-- The detour acceptance test a `Busy`/`Shared` cab must pass in
`find_shared_cab`: it has an active ride, its combined route beats
`maxDetourFactor` times the existing passenger's solo cost, and the new
rider's in-shared-cab trip beats `maxDetourFactor` times their direct
distance (both strict, as in the code). -/
def busyAccepted (active_rides : List Ride)
    (us_lat us_lon ue_lat ue_lon max_detour_factor : ℝ) (cab : Cab) : Prop :=
  ∃ ride, active_rides.find? (fun r => r.cab_id == cab.cab_id) = some ride ∧
    combinedRouteCost cab ride us_lat us_lon ue_lat ue_lon <
      origSoloCost cab ride * ((max_detour_factor : ℝ) : EReal) ∧
    newUserTripInSharedCab us_lat us_lon ue_lat ue_lon <
      calculate_distance us_lat us_lon ue_lat ue_lon * max_detour_factor

/-- The cost under which a cab competes in `find_shared_cab`'s loop:
`pickup + direct` for an `Available` cab, the new rider's pickup leg for an
accepted `Busy`/`Shared` cab, nothing otherwise. -/
def candidateCost (active_rides : List Ride)
    (us_lat us_lon ue_lat ue_lon max_detour_factor : ℝ) (cab : Cab) : Option ℝ :=
  if cab.status = "Available" then
    some (calculate_distance us_lat us_lon cab.latitude cab.longitude
      + calculate_distance us_lat us_lon ue_lat ue_lon)
  else if cab.status = "Busy" ∨ cab.status = "Shared" then
    match active_rides.find? (fun r => r.cab_id == cab.cab_id) with
    | none => none
    | some ride =>
      if combinedRouteCost cab ride us_lat us_lon ue_lat ue_lon <
          origSoloCost cab ride * ((max_detour_factor : ℝ) : EReal) then
        if newUserTripInSharedCab us_lat us_lon ue_lat ue_lon <
            calculate_distance us_lat us_lon ue_lat ue_lon * max_detour_factor then
          some (pickupDistanceForNewUser cab us_lat us_lon)
        else none
      else none
  else none

/-- The body of `find_shared_cab`'s `for cab in cabs:` loop, on the
accumulator `(best_shared_cab, min_detour_distance)`. -/
def sharedStep (active_rides : List Ride)
    (us_lat us_lon ue_lat ue_lon max_detour_factor user_direct_distance : ℝ)
    (acc : Option Cab × EReal) (cab : Cab) : Option Cab × EReal :=
  if cab.status = "Available" then
    let pickup_distance := calculate_distance us_lat us_lon cab.latitude cab.longitude
    let total_distance_for_user := pickup_distance + user_direct_distance
    if ((total_distance_for_user : ℝ) : EReal) < acc.2 then
      (some cab, ((total_distance_for_user : ℝ) : EReal))
    else acc
  else if cab.status = "Busy" ∨ cab.status = "Shared" then
    match active_rides.find? (fun r => r.cab_id == cab.cab_id) with
    | none => acc
    | some current_ride =>
      if combinedRouteCost cab current_ride us_lat us_lon ue_lat ue_lon <
          origSoloCost cab current_ride * ((max_detour_factor : ℝ) : EReal) then
        if newUserTripInSharedCab us_lat us_lon ue_lat ue_lon <
            user_direct_distance * max_detour_factor then
          let pickup := pickupDistanceForNewUser cab us_lat us_lon
          if ((pickup : ℝ) : EReal) < acc.2 then (some cab, ((pickup : ℝ) : EReal))
          else acc
        else acc
      else acc
  else acc

/-- `CabFinder.find_shared_cab`. The `DatabaseUtils.get_active_rides()` read
is the explicit `active_rides` argument; `min_detour_distance` starts at
`float('inf')` and the loop keeps the first strict minimum. -/
def find_shared_cab (cabs : List Cab) (active_rides : List Ride)
    (user_start_latitude user_start_longitude user_end_latitude user_end_longitude
      max_detour_factor : ℝ) : Option Cab × EReal :=
  let user_direct_distance := calculate_distance user_start_latitude
    user_start_longitude user_end_latitude user_end_longitude
  let result := cabs.foldl
    (sharedStep active_rides user_start_latitude user_start_longitude
      user_end_latitude user_end_longitude max_detour_factor user_direct_distance)
    (none, ⊤)
  match result.1 with
  | some best_shared_cab => (some best_shared_cab, result.2)
  | none => (none, ⊤)

/-- The candidate list `find_shared_cab`'s loop effectively minimizes over. -/
def sharedCandidates (cabs : List Cab) (active_rides : List Ride)
    (us_lat us_lon ue_lat ue_lon max_detour_factor : ℝ) : List (Cab × ℝ) :=
  cabs.filterMap fun cab =>
    (candidateCost active_rides us_lat us_lon ue_lat ue_lon max_detour_factor cab).map
      fun d => (cab, d)

/-- Keep the first strict minimum: the update `find_shared_cab`'s loop applies
to its accumulator for one candidate. -/
def selectStep (acc : Option Cab × EReal) (p : Cab × ℝ) : Option Cab × EReal :=
  if ((p.2 : ℝ) : EReal) < acc.2 then (some p.1, ((p.2 : ℝ) : EReal)) else acc

/-- First-strict-minimum selection over a candidate list, with
`find_shared_cab`'s final `(None, inf)` fallback. -/
def selectBest (candidates : List (Cab × ℝ)) : Option Cab × EReal :=
  let result := candidates.foldl selectStep (none, ⊤)
  match result.1 with
  | some best => (some best, result.2)
  | none => (none, ⊤)

/-- What `find_nearest_cab` inserts: an `Available` cab keyed by its Haversine
distance to the query point. -/
def GoodNode (user_x user_y : ℝ) (e : HeapNode) : Prop :=
  e.cab.status = "Available" ∧
    e.distance = calculate_distance user_x user_y e.cab.latitude e.cab.longitude

/-- Invariant of the `heapify_down` walk at index `i`: every parent-child pair
whose parent is not `i` is ordered, and the children of `i` are already at
least `i`'s parent. -/
def DownInv (l : List HeapNode) (i : Nat) : Prop :=
  (∀ p c, (c = 2 * p + 1 ∨ c = 2 * p + 2) → c < l.length → p ≠ i →
    (nthNode l p).distance ≤ (nthNode l c).distance) ∧
  (∀ c, (c = 2 * i + 1 ∨ c = 2 * i + 2) → c < l.length → 0 < i →
    (nthNode l ((i - 1) / 2)).distance ≤ (nthNode l c).distance)

end

end CabSystem

namespace CabSystem

/-- C6: for nonnegative leg distances, `calculate_fare_division` splits the fare
proportionally to each rider's share of the total distance and degenerates to
`(0, 0)` when the total shared distance is zero. -/
theorem fare_division_proportional (d1 d2 F : ℝ) (h1 : 0 ≤ d1) (h2 : 0 ≤ d2) :
    calculate_fare_division d1 d2 F =
      if d1 + d2 = 0 then (0, 0) else (d1 / (d1 + d2) * F, d2 / (d1 + d2) * F) := by
  rfl

/-- C6 witness: the spec's scenario `splitFare(10, 5, 150) = (100, 50)`. -/
theorem fare_division_proportional_witness :
    calculate_fare_division 10 5 150 = (100, 50) := by
  have h := fare_division_proportional 10 5 150 (by norm_num) (by norm_num)
  rw [h]
  norm_num

lemma cons_diff_of_not_mem (a : Client) (l₁ : List Client) :
    ∀ l₂ : List Client, a ∉ l₂ → (a :: l₁).diff l₂ = a :: l₁.diff l₂ := by
  intro l₂
  induction l₂ generalizing l₁ with
  | nil => intro _; simp
  | cons b t ih =>
    intro h
    have hab : a ≠ b := fun e => h (e ▸ List.mem_cons_self b t)
    rw [List.diff_cons, List.diff_cons, List.erase_cons_tail]
    · exact ih _ fun hm => h (List.mem_cons_of_mem b hm)
    · simp [hab]

lemma diff_filter_self (p : Client → Bool) :
    ∀ l : List Client, l.diff (l.filter p) = l.filter (fun c => !(p c)) := by
  intro l
  induction l with
  | nil => simp
  | cons c t ih =>
    by_cases hp : p c
    · rw [List.filter_cons_of_pos hp, List.diff_cons, List.erase_cons_head,
        List.filter_cons_of_neg (by simp [hp]), ih]
    · have hc : c ∉ t.filter p := fun hm => hp (List.of_mem_filter hm)
      rw [List.filter_cons_of_neg (by simpa using hp),
        cons_diff_of_not_mem _ _ _ hc, ih,
        List.filter_cons_of_pos (by simpa using hp)]

lemma broadcast_fold (todo : List Client) :
    ∀ (live : List Client) (acc : List Nat),
      todo.foldl
          (fun st c =>
            if c.closed then (st.1.erase c, st.2)
            else if c.fails then (st.1.erase c, st.2)
            else (st.1, st.2 ++ [c.id]))
          (live, acc)
        = (live.diff (todo.filter fun c => !(Client.good c)),
            acc ++ (todo.filter Client.good).map Client.id) := by
  induction todo with
  | nil => intro live acc; simp
  | cons c rest ih =>
    intro live acc
    by_cases hc : c.closed
    · have hg : Client.good c = false := by simp [Client.good, hc]
      simp only [List.foldl_cons, hc, if_true, ih,
        List.filter_cons, hg, Bool.not_false, List.diff_cons]
      simp
    · by_cases hf : c.fails
      · have hg : Client.good c = false := by simp [Client.good, hf]
        simp only [List.foldl_cons, hc, hf, if_false, if_true, ih,
          List.filter_cons, hg, Bool.not_false, List.diff_cons]
        simp
      · have hg : Client.good c = true := by simp [Client.good, hc, hf]
        simp only [List.foldl_cons, hc, hf, if_false, ih,
          List.filter_cons, hg, Bool.not_true, List.map_cons]
        simp

lemma cabStatusOf_update_cab_status (cabs : List Cab) (id : Nat) (s : String)
    (la lo : Option ℝ) (h : ∃ c ∈ cabs, c.cab_id = id) :
    cabStatusOf (update_cab_status cabs id s la lo) id = some s := by
  induction cabs with
  | nil => obtain ⟨c, hc, _⟩ := h; exact absurd hc (List.not_mem_nil c)
  | cons c t ih =>
    by_cases hc : c.cab_id = id
    · unfold update_cab_status cabStatusOf
      cases la <;> cases lo <;> simp [hc]
    · obtain ⟨d, hd, hid⟩ := h
      rcases List.mem_cons.mp hd with rfl | hdt
      · exact absurd hid hc
      · unfold update_cab_status cabStatusOf at ih ⊢
        simp only [List.map_cons, if_neg hc, List.find?_cons]
        rw [show (c.cab_id == id) = false by simp [hc]]
        exact ih ⟨d, hdt, hid⟩

lemma exists_id_update_cab_status (cabs : List Cab) (id : Nat) (s : String)
    (la lo : Option ℝ) (h : ∃ c ∈ cabs, c.cab_id = id) :
    ∃ c ∈ update_cab_status cabs id s la lo, c.cab_id = id := by
  obtain ⟨c, hc, hid⟩ := h
  refine ⟨_, List.mem_map_of_mem _ hc, ?_⟩
  cases la <;> cases lo <;> simp [hid]

/-- C1 (amended): when a vehicle in the `to_pickup` phase comes within the
arrival threshold of its target, the same tick that detects the arrival marks
it `Arrived`, and — if an active ride with nonzero destination coordinates
exists — immediately replaces its target with the ride's destination in phase
`to_destination` and sets the vehicle's status to `OnTrip`; the switch does not
wait for any later external command. -/
theorem pickup_arrival_switches_within_tick
    (rides : List Ride) (st : TickState) (cab : Cab) (drift : ℝ × ℝ)
    (target : Target) (ride : Ride)
    (ht : List.lookup cab.cab_id st.targets = some target)
    (hphase : target.phase = "to_pickup")
    (hdist : Real.sqrt ((target.target_lat - cab.latitude) ^ 2 +
      (target.target_lng - cab.longitude) ^ 2) < ARRIVE_THRESHOLD)
    (hride : get_ride_by_cab_id rides cab.cab_id = some ride)
    (hend : ride.end_latitude ≠ 0 ∧ ride.end_longitude ≠ 0)
    (hpresent : ∃ c ∈ st.cabs, c.cab_id = cab.cab_id) :
    List.lookup cab.cab_id (processCab rides st cab drift).targets
        = some ⟨ride.end_latitude, ride.end_longitude, "to_destination"⟩ ∧
      cabStatusOf (processCab rides st cab drift).cabs cab.cab_id = some "OnTrip" ∧
      (⟨cab.cab_id, target.target_lat, target.target_lng, "Arrived"⟩ : Event)
        ∈ (processCab rides st cab drift).events := by
  have hstep : processCab rides st cab drift =
      { cabs := update_cab_status
          (update_cab_status st.cabs cab.cab_id "Arrived"
            (some target.target_lat) (some target.target_lng))
          cab.cab_id "OnTrip" (some target.target_lat) (some target.target_lng),
        targets := setTarget st.targets cab.cab_id
          ⟨ride.end_latitude, ride.end_longitude, "to_destination"⟩,
        events := st.events ++
          [⟨cab.cab_id, target.target_lat, target.target_lng, "Arrived"⟩] } := by
    unfold processCab
    rw [ht]
    simp only [hphase, hride, hdist, hend.1, hend.2, ne_eq, not_false_eq_true,
      and_self, if_true, ite_true]
  rw [hstep]
  refine ⟨?_, ?_, ?_⟩
  · simp [setTarget, List.lookup]
  · show cabStatusOf
        (update_cab_status
          (update_cab_status st.cabs cab.cab_id "Arrived"
            (some target.target_lat) (some target.target_lng))
          cab.cab_id "OnTrip" (some target.target_lat) (some target.target_lng))
        cab.cab_id = some "OnTrip"
    exact cabStatusOf_update_cab_status _ _ _ _ _
      (exists_id_update_cab_status _ _ _ _ _ hpresent)
  · simp

/-- C1 witness: a concrete cab exactly on its pickup target with an active
ride switches to the destination phase in that same tick. -/
theorem pickup_arrival_switches_within_tick_witness :
    List.lookup 1 (processCab [⟨1, 18.52, 73.85, 18.53, 73.86⟩]
        ⟨[⟨1, "cab", 18.5204, 73.8567, "Enroute"⟩],
          [(1, ⟨18.5204, 73.8567, "to_pickup"⟩)], []⟩
        ⟨1, "cab", 18.5204, 73.8567, "Enroute"⟩ (0, 0)).targets
      = some ⟨18.53, 73.86, "to_destination"⟩ := by
  have h := pickup_arrival_switches_within_tick
    [⟨1, 18.52, 73.85, 18.53, 73.86⟩]
    ⟨[⟨1, "cab", 18.5204, 73.8567, "Enroute"⟩],
      [(1, ⟨18.5204, 73.8567, "to_pickup"⟩)], []⟩
    ⟨1, "cab", 18.5204, 73.8567, "Enroute"⟩ (0, 0)
    ⟨18.5204, 73.8567, "to_pickup"⟩ ⟨1, 18.52, 73.85, 18.53, 73.86⟩
    (by simp [List.lookup]) rfl
    (by
      rw [show ((18.5204 : ℝ) - 18.5204) = 0 by norm_num,
        show ((73.8567 : ℝ) - 73.8567) = 0 by norm_num,
        show ((0 : ℝ) ^ 2 + (0 : ℝ) ^ 2) = 0 by norm_num, Real.sqrt_zero]
      unfold ARRIVE_THRESHOLD
      norm_num)
    (by simp [get_ride_by_cab_id])
    (by norm_num)
    ⟨⟨1, "cab", 18.5204, 73.8567, "Enroute"⟩, by simp, rfl⟩
  exact h.1

/-- C1 counterexample to the claim as stated: at a concrete state where a
`to_pickup` vehicle has reached its pickup target and an active ride exists,
the tick does not leave the Target at `(pickup point, to_pickup)`: it replaces
it with the destination phase inside the same tick, without waiting for any
`startTrip` command. -/
theorem pickup_arrival_target_not_unchanged_cex :
    List.lookup 1 (processCab [⟨1, 18.52, 73.85, 18.53, 73.86⟩]
        ⟨[⟨1, "cab", 18.5204, 73.8567, "Enroute"⟩],
          [(1, ⟨18.5204, 73.8567, "to_pickup"⟩)], []⟩
        ⟨1, "cab", 18.5204, 73.8567, "Enroute"⟩ (0, 0)).targets
      ≠ some ⟨18.5204, 73.8567, "to_pickup"⟩ := by
  have hd : Real.sqrt (((18.5204 : ℝ) - 18.5204) ^ 2 +
      ((73.8567 : ℝ) - 73.8567) ^ 2) < ARRIVE_THRESHOLD := by
    rw [show ((18.5204 : ℝ) - 18.5204) = 0 by norm_num,
      show ((73.8567 : ℝ) - 73.8567) = 0 by norm_num,
      show ((0 : ℝ) ^ 2 + (0 : ℝ) ^ 2) = 0 by norm_num, Real.sqrt_zero]
    unfold ARRIVE_THRESHOLD
    norm_num
  simp only [processCab, List.lookup, get_ride_by_cab_id, setTarget]
  norm_num [hd, List.find?]
  rw [if_pos (show (0 : ℝ) < ARRIVE_THRESHOLD by unfold ARRIVE_THRESHOLD; norm_num)]
  simp [List.lookup]

lemma length_heap_swap (l : List HeapNode) (i j : Nat) :
    (heap_swap l i j).length = l.length := by
  simp [heap_swap, List.length_set]

lemma nthNode_heap_swap (l : List HeapNode) (i j x : Nat)
    (hi : i < l.length) (hj : j < l.length) :
    nthNode (heap_swap l i j) x =
      if x = j then nthNode l i else if x = i then nthNode l j else nthNode l x := by
  unfold heap_swap nthNode
  simp only [List.getD_eq_getElem?_getD]
  by_cases hxj : x = j
  · subst hxj
    rw [List.getElem?_set_eq (by simpa using hj)]
    simp
  · rw [List.getElem?_set_ne (Ne.symm hxj)]
    by_cases hxi : x = i
    · subst hxi
      rw [List.getElem?_set_eq hi]
      simp [hxj]
    · rw [List.getElem?_set_ne (Ne.symm hxi)]
      simp [hxj, hxi]

lemma nthNode_mem (l : List HeapNode) (i : Nat) (h : i < l.length) :
    nthNode l i ∈ l := by
  unfold nthNode
  rw [List.getD_eq_getElem _ _ h]
  exact List.getElem_mem h

lemma mem_heap_swap (l : List HeapNode) (i j : Nat) (x : HeapNode)
    (hi : i < l.length) (hj : j < l.length) (hx : x ∈ heap_swap l i j) : x ∈ l := by
  unfold heap_swap at hx
  rcases List.mem_or_eq_of_mem_set hx with hx' | rfl
  · rcases List.mem_or_eq_of_mem_set hx' with hx'' | rfl
    · exact hx''
    · exact nthNode_mem l j hj
  · exact nthNode_mem l i hi

lemma length_heapify_up : ∀ (i : Nat) (l : List HeapNode),
    (heapify_up l i).length = l.length := by
  intro i
  induction i using Nat.strong_induction_on with
  | _ i ih =>
    intro l
    match i with
    | 0 => simp [heapify_up]
    | i + 1 =>
      rw [heapify_up]
      split_ifs with hc
      · rw [ih (i / 2) (by omega), length_heap_swap]
      · rfl

lemma mem_heapify_up : ∀ (i : Nat) (l : List HeapNode), i < l.length →
    ∀ x ∈ heapify_up l i, x ∈ l := by
  intro i
  induction i using Nat.strong_induction_on with
  | _ i ih =>
    intro l hi x hx
    match i with
    | 0 =>
      rw [heapify_up] at hx
      exact hx
    | i + 1 =>
      rw [heapify_up] at hx
      split_ifs at hx with hc
      · have hp : i / 2 < l.length := by omega
        have hx' := ih (i / 2) (by omega) _
          (by rw [length_heap_swap]; exact hp) x hx
        exact mem_heap_swap l (i + 1) (i / 2) x hi hp hx'
      · exact hx

lemma length_heapify_down (l : List HeapNode) (i : Nat) :
    (heapify_down l i).length = l.length := by
  unfold heapify_down
  split_ifs with h
  · rw [length_heapify_down, length_heap_swap]
  · rfl
termination_by l.length - i
decreasing_by
  rw [show (heap_swap l i (heapDownTarget l i)).length = l.length by
    simp [heap_swap, List.length_set]]
  revert h
  unfold heapDownTarget
  split_ifs with h1 h2 h3 <;> intro h <;>
    first
    | exact absurd rfl h
    | (obtain ⟨hl, -⟩ := h1
       omega)
    | (obtain ⟨hl, -⟩ := h2
       omega)
    | (obtain ⟨hl, -⟩ := h3
       omega)

lemma heapDownTarget_cases (l : List HeapNode) (i : Nat) :
    heapDownTarget l i = i ∨ (i < heapDownTarget l i ∧ heapDownTarget l i < l.length) := by
  unfold heapDownTarget
  split_ifs with h1 h2 h3 <;>
    first
    | exact Or.inl rfl
    | (obtain ⟨hl, -⟩ := h1
       right
       omega)
    | (obtain ⟨hl, -⟩ := h2
       right
       omega)
    | (obtain ⟨hl, -⟩ := h3
       right
       omega)

lemma mem_heapify_down (l : List HeapNode) (i : Nat) :
    ∀ x ∈ heapify_down l i, x ∈ l := by
  intro x hx
  rw [heapify_down] at hx
  split_ifs at hx with h
  · rcases heapDownTarget_cases l i with heq | ⟨hgt, hlen⟩
    · exact absurd heq (Ne.symm h)
    · have hi : i < l.length := lt_trans hgt hlen
      have := mem_heapify_down (heap_swap l i (heapDownTarget l i)) (heapDownTarget l i) x hx
      exact mem_heap_swap l i (heapDownTarget l i) x hi hlen this
  · exact hx
termination_by l.length - i
decreasing_by
  rw [show (heap_swap l i (heapDownTarget l i)).length = l.length by
    simp [heap_swap, List.length_set]]
  rcases heapDownTarget_cases l i with heq | ⟨hgt, hlen⟩
  · exact absurd heq (Ne.symm h)
  · omega

lemma isHeap_root_min (l : List HeapNode) (h : IsHeap l) :
    ∀ j, j < l.length → (nthNode l 0).distance ≤ (nthNode l j).distance := by
  intro j
  induction j using Nat.strong_induction_on with
  | _ j ih =>
    intro hj
    match j with
    | 0 => exact le_refl _
    | j + 1 =>
      have hchild : j + 1 = 2 * (j / 2) + 1 ∨ j + 1 = 2 * (j / 2) + 2 := by omega
      exact le_trans (ih (j / 2) (by omega) (by omega)) (h (j / 2) (j + 1) hchild hj)

lemma heapify_up_isHeap : ∀ (i : Nat) (l : List HeapNode), i < l.length →
    UpInv l i → IsHeap (heapify_up l i) := by
  intro i
  induction i using Nat.strong_induction_on with
  | _ i ih =>
    intro l hi hinv
    match i with
    | 0 =>
      rw [heapify_up]
      intro p c hpc hcl
      exact hinv.1 p c hpc hcl (by omega)
    | i + 1 =>
      rw [heapify_up]
      split_ifs with hlt
      · have hp : i / 2 < l.length := by omega
        have hswap : ∀ x, nthNode (heap_swap l (i + 1) (i / 2)) x =
            if x = i / 2 then nthNode l (i + 1)
            else if x = i + 1 then nthNode l (i / 2) else nthNode l x :=
          fun x => nthNode_heap_swap l (i + 1) (i / 2) x hi hp
        apply ih (i / 2) (by omega) _ (by rw [length_heap_swap]; omega)
        constructor
        · intro a c hac hcl hcne
          rw [length_heap_swap] at hcl
          by_cases hc1 : c = i + 1
          · subst hc1
            have ha : a = i / 2 := by omega
            subst ha
            rw [hswap, hswap]
            simp only [if_pos rfl, if_neg (by omega : ¬ i + 1 = i / 2), if_pos rfl]
            exact le_of_lt hlt
          · have hcp : c ≠ i / 2 := hcne
            rw [hswap c, if_neg hcp, if_neg hc1]
            by_cases ha2 : a = i / 2
            · subst ha2
              rw [hswap, if_pos rfl]
              exact le_trans (le_of_lt hlt) (hinv.1 (i / 2) c hac hcl hc1)
            · by_cases ha3 : a = i + 1
              · subst ha3
                rw [hswap, if_neg (by omega : ¬ i + 1 = i / 2), if_pos rfl]
                have := hinv.2 c (by simpa using hac) hcl (by omega)
                simpa using this
              · rw [hswap, if_neg ha2, if_neg ha3]
                exact hinv.1 a c hac hcl hc1
        · intro c hc hcl h0
          rw [length_heap_swap] at hcl
          have hgp : (i / 2 - 1) / 2 ≠ i / 2 := by omega
          have hgp2 : (i / 2 - 1) / 2 ≠ i + 1 := by omega
          have hg_le : (nthNode l ((i / 2 - 1) / 2)).distance ≤ (nthNode l (i / 2)).distance :=
            hinv.1 ((i / 2 - 1) / 2) (i / 2) (by omega) (by omega) (by omega)
          rw [hswap ((i / 2 - 1) / 2), if_neg hgp, if_neg hgp2]
          by_cases hc1 : c = i + 1
          · subst hc1
            rw [hswap, if_neg (by omega : ¬ i + 1 = i / 2), if_pos rfl]
            exact hg_le
          · have hcp : c ≠ i / 2 := by omega
            rw [hswap c, if_neg hcp, if_neg hc1]
            exact le_trans hg_le (hinv.1 (i / 2) c hc hcl hc1)
      · intro p c hpc hcl
        by_cases hci : c = i + 1
        · subst hci
          have hp : p = i / 2 := by omega
          subst hp
          exact le_of_not_lt (by simpa using hlt)
        · exact hinv.1 p c hpc hcl hci

lemma nthNode_append_lt (l : List HeapNode) (e : HeapNode) (x : Nat)
    (hx : x < l.length) : nthNode (l ++ [e]) x = nthNode l x := by
  unfold nthNode
  simp [List.getD_eq_getElem?_getD, List.getElem?_append, hx]

lemma nthNode_append_self (l : List HeapNode) (e : HeapNode) :
    nthNode (l ++ [e]) l.length = e := by
  unfold nthNode
  simp [List.getD_eq_getElem?_getD, List.getElem?_append]

lemma heap_insert_isHeap (l : List HeapNode) (hl : IsHeap l) (cab : Cab) (d : ℝ) :
    IsHeap (heap_insert l cab d) := by
  unfold heap_insert
  refine heapify_up_isHeap l.length (l ++ [⟨cab, d⟩]) (by simp) ⟨?_, ?_⟩
  · intro p c hpc hcl hcne
    have hcl' : c < l.length := by
      simp only [List.length_append, List.length_cons, List.length_nil] at hcl
      omega
    rw [nthNode_append_lt _ _ _ hcl', nthNode_append_lt _ _ _ (by omega)]
    exact hl p c hpc hcl'
  · intro c hc hcl h0
    simp only [List.length_append, List.length_cons, List.length_nil] at hcl
    omega

lemma mem_heap_insert (l : List HeapNode) (cab : Cab) (d : ℝ) :
    ∀ x ∈ heap_insert l cab d, x ∈ l ++ [⟨cab, d⟩] := by
  intro x hx
  unfold heap_insert at hx
  exact mem_heapify_up l.length (l ++ [⟨cab, d⟩]) (by simp) x hx

lemma heapDownTarget_eq_self_min (l : List HeapNode) (i : Nat)
    (h : heapDownTarget l i = i) :
    ∀ c, (c = 2 * i + 1 ∨ c = 2 * i + 2) → c < l.length →
      (nthNode l i).distance ≤ (nthNode l c).distance := by
  intro c hc hcl
  revert h
  unfold heapDownTarget
  split_ifs with h1 h2 h3 <;> intro h
  · omega
  · omega
  · omega
  · rcases hc with rfl | rfl
    · exact le_of_not_lt fun hlt => h1 ⟨hcl, hlt⟩
    · exact le_of_not_lt fun hlt => h3 ⟨hcl, hlt⟩

lemma heapDownTarget_spec (l : List HeapNode) (i : Nat) (h : heapDownTarget l i ≠ i) :
    (heapDownTarget l i = 2 * i + 1 ∨ heapDownTarget l i = 2 * i + 2) ∧
    (nthNode l (heapDownTarget l i)).distance < (nthNode l i).distance ∧
    ∀ c, (c = 2 * i + 1 ∨ c = 2 * i + 2) → c < l.length →
      (nthNode l (heapDownTarget l i)).distance ≤ (nthNode l c).distance := by
  revert h
  unfold heapDownTarget
  split_ifs with h1 h2 h3 <;> intro h
  · refine ⟨Or.inr rfl, lt_trans h2.2 h1.2, ?_⟩
    intro c hc hcl
    rcases hc with rfl | rfl
    · exact le_of_lt h2.2
    · exact le_refl _
  · refine ⟨Or.inl rfl, h1.2, ?_⟩
    intro c hc hcl
    rcases hc with rfl | rfl
    · exact le_refl _
    · exact le_of_not_lt fun hlt => h2 ⟨hcl, hlt⟩
  · refine ⟨Or.inr rfl, h3.2, ?_⟩
    intro c hc hcl
    rcases hc with rfl | rfl
    · exact le_trans (le_of_lt h3.2) (le_of_not_lt fun hlt => h1 ⟨hcl, hlt⟩)
    · exact le_refl _
  · exact absurd rfl h

lemma downInv_swap (l : List HeapNode) (i : Nat) (hinv : DownInv l i)
    (h : heapDownTarget l i ≠ i) :
    DownInv (heap_swap l i (heapDownTarget l i)) (heapDownTarget l i) := by
  obtain ⟨ht_or, ht_lt, ht_min⟩ := heapDownTarget_spec l i h
  rcases heapDownTarget_cases l i with heq | ⟨hgt, hlen⟩
  · exact absurd heq h
  have hi : i < l.length := lt_trans hgt hlen
  have hswap : ∀ x, nthNode (heap_swap l i (heapDownTarget l i)) x =
      if x = heapDownTarget l i then nthNode l i
      else if x = i then nthNode l (heapDownTarget l i) else nthNode l x :=
    fun x => nthNode_heap_swap l i (heapDownTarget l i) x hi hlen
  constructor
  · intro a c hac hcl hat
    rw [length_heap_swap] at hcl
    by_cases hci : c = i
    · have ha_lt : a < i := by omega
      rw [hci, hswap a, if_neg (by omega), if_neg (by omega),
        hswap i, if_neg (by omega), if_pos rfl]
      have hstep := hinv.2 (heapDownTarget l i) ht_or hlen (by omega)
      have ha_eq : a = (i - 1) / 2 := by omega
      rw [ha_eq]
      exact hstep
    · by_cases hct : c = heapDownTarget l i
      · subst hct
        have ha_eq : a = i := by rcases ht_or with h'' | h'' <;> omega
        rw [ha_eq, hswap i, if_neg (by omega), if_pos rfl,
          hswap (heapDownTarget l i), if_pos rfl]
        exact le_of_lt ht_lt
      · rw [hswap c, if_neg hct, if_neg hci]
        by_cases hai : a = i
        · subst hai
          rw [hswap a, if_neg (by omega), if_pos rfl]
          exact ht_min c hac hcl
        · rw [hswap a, if_neg hat, if_neg hai]
          exact hinv.1 a c hac hcl hai
  · intro c hc hcl h0
    rw [length_heap_swap] at hcl
    have hct : c ≠ heapDownTarget l i := by omega
    have hci : c ≠ i := by rcases ht_or with h'' | h'' <;> omega
    have hpt : (heapDownTarget l i - 1) / 2 = i := by rcases ht_or with h'' | h'' <;> omega
    rw [hpt, hswap i, if_neg (by omega), if_pos rfl, hswap c, if_neg hct, if_neg hci]
    exact hinv.1 (heapDownTarget l i) c hc hcl (fun e => h e)

lemma heapify_down_isHeap (l : List HeapNode) (i : Nat) (hinv : DownInv l i) :
    IsHeap (heapify_down l i) := by
  rw [heapify_down]
  split_ifs with h
  · exact heapify_down_isHeap _ _ (downInv_swap l i hinv (Ne.symm h))
  · push_neg at h
    intro p c hpc hcl
    by_cases hpi : p = i
    · subst hpi
      exact heapDownTarget_eq_self_min l p h.symm c hpc hcl
    · exact hinv.1 p c hpc hcl hpi
termination_by l.length - i
decreasing_by
  rw [show (heap_swap l i (heapDownTarget l i)).length = l.length by
    simp [heap_swap, List.length_set]]
  rcases heapDownTarget_cases l i with heq | ⟨hgt, hlen⟩
  · exact absurd heq (Ne.symm h)
  · omega

lemma nthNode_set_dropLast (l : List HeapNode) (v : HeapNode) (x : Nat)
    (hx0 : 0 < x) (hx : x < l.length - 1) :
    nthNode ((l.set 0 v).dropLast) x = nthNode l x := by
  unfold nthNode
  simp only [List.getD_eq_getElem?_getD, List.getElem?_dropLast, List.length_set]
  rw [if_pos hx, List.getElem?_set_ne (by omega)]

lemma extract_min_fst (l : List HeapNode) (hne : l ≠ []) :
    (extract_min l).1 = some (nthNode l 0) := by
  cases l with
  | nil => exact absurd rfl hne
  | cons a t => rfl

lemma mem_extract_min_rest (l : List HeapNode) :
    ∀ x ∈ (extract_min l).2, x ∈ l := by
  intro x hx
  cases l with
  | nil => simpa [extract_min] using hx
  | cons a t =>
    have hx' : x ∈ ((a :: t).set 0 (nthNode (a :: t) ((a :: t).length - 1))).dropLast := by
      unfold extract_min at hx
      dsimp only at hx
      split_ifs at hx with h0
      · exact mem_heapify_down _ _ x hx
      · exact hx
    have hx'' := (List.dropLast_sublist _).subset hx'
    rcases List.mem_or_eq_of_mem_set hx'' with hmem | rfl
    · exact hmem
    · exact nthNode_mem _ _ (by simp)

lemma extract_min_rest_isHeap (l : List HeapNode) (h : IsHeap l) :
    IsHeap (extract_min l).2 := by
  cases l with
  | nil =>
    intro p c hpc hcl
    simp [extract_min] at hcl
  | cons a t =>
    unfold extract_min
    dsimp only
    split_ifs with h0
    · apply heapify_down_isHeap
      constructor
      · intro p c hpc hcl hp0
        rw [List.length_dropLast, List.length_set] at hcl
        have hp_pos : 0 < p := Nat.pos_of_ne_zero hp0
        rw [nthNode_set_dropLast _ _ p hp_pos (by omega),
          nthNode_set_dropLast _ _ c (by omega) hcl]
        exact h p c hpc (by omega)
      · intro c hc hcl h0'
        omega
    · intro p c hpc hcl
      rw [List.length_dropLast, List.length_set] at h0 hcl
      omega

lemma extract_loop_length : ∀ (n : Nat) (h : List HeapNode),
    (extract_loop n h).length ≤ n := by
  intro n
  induction n with
  | zero => intro h; simp [extract_loop]
  | succ n ih =>
    intro h
    rcases hme : extract_min h with ⟨fst, h'⟩
    rw [extract_loop, hme]
    cases fst with
    | none => simp
    | some e => simpa using ih h'

lemma extract_loop_mem : ∀ (n : Nat) (h : List HeapNode),
    ∀ p ∈ extract_loop n h, ∃ e, e ∈ h ∧ p = (e.cab, e.distance) := by
  intro n
  induction n with
  | zero => intro h p hp; simp [extract_loop] at hp
  | succ n ih =>
    intro h p hp
    rcases hme : extract_min h with ⟨fst, h'⟩
    rw [extract_loop, hme] at hp
    cases fst with
    | none => simp at hp
    | some e =>
      have hne : h ≠ [] := by
        intro heq
        subst heq
        simp [extract_min] at hme
      have hfst : some (nthNode h 0) = some e := by
        rw [← extract_min_fst h hne, hme]
      have he_mem : e ∈ h := by
        rw [← Option.some.injEq _ _ |>.mp hfst]
        exact nthNode_mem h 0 (by cases h with | nil => exact absurd rfl hne | cons a t => simp)
      rcases List.mem_cons.mp hp with rfl | hp'
      · exact ⟨e, he_mem, rfl⟩
      · obtain ⟨e', he', rfl⟩ := ih h' p hp'
        refine ⟨e', ?_, rfl⟩
        have : e' ∈ (extract_min h).2 := by rw [hme]; exact he'
        exact mem_extract_min_rest h e' this

lemma extract_loop_sorted : ∀ (n : Nat) (h : List HeapNode), IsHeap h →
    List.Sorted (· ≤ ·) ((extract_loop n h).map Prod.snd) := by
  intro n
  induction n with
  | zero => intro h _; simp [extract_loop]
  | succ n ih =>
    intro h hh
    rcases hme : extract_min h with ⟨fst, h'⟩
    rw [extract_loop, hme]
    cases fst with
    | none => simp
    | some e =>
      simp only [List.map_cons]
      rw [List.sorted_cons]
      have hne : h ≠ [] := by
        intro heq
        subst heq
        simp [extract_min] at hme
      have h0len : 0 < h.length := by
        cases h with | nil => exact absurd rfl hne | cons a t => simp
      have he_eq : e = nthNode h 0 := by
        have hfst : some (nthNode h 0) = some e := by
          rw [← extract_min_fst h hne, hme]
        exact (Option.some.injEq _ _ |>.mp hfst).symm
      constructor
      · intro b hb
        simp only [List.mem_map] at hb
        obtain ⟨p, hp, rfl⟩ := hb
        obtain ⟨e', he', rfl⟩ := extract_loop_mem n h' p hp
        have he'h : e' ∈ h := mem_extract_min_rest h e' (by rw [hme]; exact he')
        obtain ⟨idx, hidx, heq⟩ := List.mem_iff_getElem.mp he'h
        have hroot := isHeap_root_min h hh idx hidx
        have hnth : nthNode h idx = e' := by
          unfold nthNode
          rw [List.getD_eq_getElem _ _ hidx]
          exact heq
        rw [he_eq]
        calc (nthNode h 0).distance ≤ (nthNode h idx).distance := hroot
          _ = e'.distance := by rw [hnth]
      · apply ih h'
        have hrest := extract_min_rest_isHeap h hh
        rw [hme] at hrest
        exact hrest

lemma built_heap_spec (cabs : List Cab) (ux uy : ℝ) :
    ∀ acc : List HeapNode, IsHeap acc → (∀ e ∈ acc, GoodNode ux uy e) →
      IsHeap (cabs.foldl
        (fun h cab =>
          if cab.status = "Available" then
            heap_insert h cab (calculate_distance ux uy cab.latitude cab.longitude)
          else h) acc) ∧
      ∀ e ∈ cabs.foldl
        (fun h cab =>
          if cab.status = "Available" then
            heap_insert h cab (calculate_distance ux uy cab.latitude cab.longitude)
          else h) acc, GoodNode ux uy e := by
  induction cabs with
  | nil => intro acc h1 h2; exact ⟨h1, h2⟩
  | cons c rest ih =>
    intro acc h1 h2
    rw [List.foldl_cons]
    by_cases hc : c.status = "Available"
    · rw [if_pos hc]
      apply ih
      · exact heap_insert_isHeap acc h1 c _
      · intro e he
        rcases List.mem_append.mp (mem_heap_insert acc c _ e he) with hmem | hmem
        · exact h2 e hmem
        · rcases List.mem_singleton.mp hmem with rfl
          exact ⟨hc, rfl⟩
    · rw [if_neg hc]
      exact ih acc h1 h2

lemma built_heap_empty (cabs : List Cab) (ux uy : ℝ)
    (hno : ∀ c ∈ cabs, c.status ≠ "Available") :
    cabs.foldl
      (fun h cab =>
        if cab.status = "Available" then
          heap_insert h cab (calculate_distance ux uy cab.latitude cab.longitude)
        else h) [] = [] := by
  induction cabs with
  | nil => rfl
  | cons c rest ih =>
    rw [List.foldl_cons, if_neg (hno c (List.mem_cons_self c rest))]
    exact ih fun c' hc' => hno c' (List.mem_cons_of_mem c hc')

/-- C2: `find_nearest_cab` returns at most `num_cabs` results; every result is
an `Available` cab paired with its Haversine distance to the query point; the
results are sorted by nondecreasing distance; and the result is empty when no
cab is `Available`. The embedding is a total function, so no input errors. -/
theorem find_nearest_cab_spec :
    ∀ (cabs : List Cab) (user_x user_y : ℝ) (num_cabs : Nat),
      (find_nearest_cab cabs user_x user_y num_cabs).length ≤ num_cabs ∧
      (∀ p ∈ find_nearest_cab cabs user_x user_y num_cabs,
        p.1.status = "Available" ∧
        p.2 = calculate_distance user_x user_y p.1.latitude p.1.longitude) ∧
      List.Sorted (· ≤ ·)
        ((find_nearest_cab cabs user_x user_y num_cabs).map Prod.snd) ∧
      ((∀ c ∈ cabs, c.status ≠ "Available") →
        find_nearest_cab cabs user_x user_y num_cabs = []) := by
  intro cabs ux uy k
  obtain ⟨hheap, hgood⟩ := built_heap_spec cabs ux uy []
    (by intro p c hpc hcl; simp at hcl) (by intro e he; simp at he)
  unfold find_nearest_cab
  refine ⟨extract_loop_length k _, ?_, extract_loop_sorted k _ hheap, ?_⟩
  · intro p hp
    obtain ⟨e, he, rfl⟩ := extract_loop_mem k _ p hp
    exact ⟨(hgood e he).1, (hgood e he).2⟩
  · intro hno
    rw [built_heap_empty cabs ux uy hno]
    cases k with
    | zero => rfl
    | succ n => rfl

lemma verts_add_vertex_mono (g : Graph) (v x : Pt) (h : x ∈ g.verts) :
    x ∈ (add_vertex g v).verts := by
  unfold add_vertex
  split_ifs with hv
  · exact h
  · exact List.mem_append_left _ h

lemma mem_add_vertex_self (g : Graph) (v : Pt) : v ∈ (add_vertex g v).verts := by
  unfold add_vertex
  split_ifs with hv
  · exact hv
  · exact List.mem_append_right _ (List.mem_singleton_self v)

lemma adj_add_vertex (g : Graph) (v : Pt) : (add_vertex g v).adj = g.adj := by
  unfold add_vertex
  split_ifs <;> rfl

lemma verts_add_edge_mono (g : Graph) (a b x : Pt) (w : Option ℝ) (h : x ∈ g.verts) :
    x ∈ (add_edge g a b w).verts :=
  verts_add_vertex_mono _ _ _ (verts_add_vertex_mono _ _ _ h)

lemma foldl_verts_mono {β : Type} (f : Graph → β → Graph)
    (hf : ∀ (g : Graph) (b : β) (x : Pt), x ∈ g.verts → x ∈ (f g b).verts) :
    ∀ (l : List β) (g : Graph) (x : Pt), x ∈ g.verts → x ∈ (l.foldl f g).verts := by
  intro l
  induction l with
  | nil => intro g x h; exact h
  | cons b t ih => intro g x h; exact ih (f g b) x (hf g b x h)

lemma dijkstraStep_init_self (g : Graph) (A : Pt) :
    dijkstraStep g A (initState A) = none := by
  unfold dijkstraStep initState popMin minEntry
  simp [List.erase_cons_head]

lemma dijkstraRun_stuck (g : Graph) (e : Pt) (n : Nat) (s : DState)
    (h : dijkstraStep g e s = none) : dijkstraRun g e n s = s := by
  cases n with
  | zero => rfl
  | succ n => rw [dijkstraRun, h]

lemma dijkstra_self (g : Graph) (A : Pt) (hA : A ∈ g.verts) :
    g.dijkstra A A = (0, [A]) := by
  unfold Graph.dijkstra dijkstraWithFuel
  rw [if_neg (by simp [hA])]
  simp only [dijkstraRun_stuck _ _ _ _ (dijkstraStep_init_self g A)]
  simp [initState, buildPath]

lemma find_shortest_path_self_aux (slat slon lat_step lon_step buffer : ℝ) :
    find_shortest_path slat slon slat slon lat_step lon_step buffer
      = (0, [(slat, slon)]) := by
  simp only [find_shortest_path]
  apply dijkstra_self
  apply foldl_verts_mono
  · intro g b x hx
    apply foldl_verts_mono
    · intro g' b' x' hx'
      dsimp only
      split_ifs <;>
        (try apply verts_add_edge_mono) <;>
        (try apply verts_add_edge_mono) <;>
        exact hx'
    · exact hx
  · exact verts_add_vertex_mono _ _ _ (mem_add_vertex_self _ _)

/-- C7: `find_shortest_path` called with equal start and end returns distance
`0` and the single-vertex path, for every step/buffer configuration: the start
vertex is injected into the grid graph, Dijkstra pops it first, sees it equals
the end vertex and stops, and the reconstruction walks the empty predecessor
chain. -/
theorem find_shortest_path_self :
    ∀ slat slon lat_step lon_step buffer : ℝ,
      find_shortest_path slat slon slat slon lat_step lon_step buffer
        = (0, [(slat, slon)]) :=
  find_shortest_path_self_aux

/-- C8: `dijkstra` returns `(+infinity, [])` whenever the start or the end
vertex is absent from the graph. -/
theorem dijkstra_missing_vertex (g : Graph) (s e : Pt)
    (h : s ∉ g.verts ∨ e ∉ g.verts) : g.dijkstra s e = (⊤, []) := by
  unfold Graph.dijkstra dijkstraWithFuel
  rw [if_pos h]

/-- C8 witness: the empty graph contains neither query vertex. -/
theorem dijkstra_missing_vertex_witness :
    Graph.empty.dijkstra (0, 0) (1, 1) = (⊤, []) :=
  dijkstra_missing_vertex Graph.empty (0, 0) (1, 1)
    (Or.inl (by simp [Graph.empty]))

lemma minEntry_mem : ∀ (xs : List (EReal × Pt)) (e : EReal × Pt),
    minEntry e xs = e ∨ minEntry e xs ∈ xs := by
  intro xs
  induction xs with
  | nil => intro e; exact Or.inl rfl
  | cons x xs ih =>
    intro e
    rw [minEntry]
    rcases ih (if pqLt x e then x else e) with h | h
    · rw [h]
      split_ifs with hc
      · exact Or.inr (List.mem_cons_self x xs)
      · exact Or.inl rfl
    · exact Or.inr (List.mem_cons_of_mem x h)

lemma popMin_mem (pq : List (EReal × Pt)) (m : EReal × Pt)
    (rest : List (EReal × Pt)) (h : popMin pq = some (m, rest)) :
    m ∈ pq ∧ ∀ x ∈ rest, x ∈ pq := by
  cases pq with
  | nil => simp [popMin] at h
  | cons x xs =>
    unfold popMin at h
    simp only [Option.some.injEq, Prod.mk.injEq] at h
    obtain ⟨hm, hrest⟩ := h
    constructor
    · rcases minEntry_mem xs x with he | he
      · rw [← hm, he]
        exact List.mem_cons_self x xs
      · rw [← hm]
        exact List.mem_cons_of_mem x he
    · intro y hy
      rw [← hrest] at hy
      exact List.erase_subset _ _ hy

lemma relaxNeighbors_dinv (g : Graph) (start_vertex u : Pt) (d : EReal)
    (hd : ∃ r : ℝ, d = (r : EReal)) (hu : Reachable g start_vertex u) :
    ∀ (vs : List Pt), (∀ v ∈ vs, Adj g u v) → ∀ s : DState,
      DInv g start_vertex s → DInv g start_vertex (relaxNeighbors g u d vs s) := by
  obtain ⟨r, rfl⟩ := hd
  intro vs
  induction vs with
  | nil => intro _ s hs; exact hs
  | cons v vs ih =>
    intro hvs s hs
    rw [relaxNeighbors]
    split_ifs with hlt
    · apply ih fun v' hv' => hvs v' (List.mem_cons_of_mem _ hv')
      have hreach_v : Reachable g start_vertex v :=
        Relation.ReflTransGen.tail hu (hvs v (List.mem_cons_self v vs))
      refine ⟨?_, ?_, ?_, ?_⟩
      · intro p hp
        rcases List.mem_append.mp hp with hp' | hp'
        · exact hs.1 p hp'
        · rcases List.mem_singleton.mp hp' with rfl
          exact ⟨r + g.w u v, by rw [EReal.coe_add]⟩
      · intro p hp
        rcases List.mem_append.mp hp with hp' | hp'
        · dsimp only
          by_cases hpv : p.2 = v
          · rw [if_pos hpv]
            have := hs.2.1 p hp'
            rw [hpv] at this
            exact le_trans (le_of_lt hlt) this
          · rw [if_neg hpv]
            exact hs.2.1 p hp'
        · rcases List.mem_singleton.mp hp' with rfl
          simp
      · intro x hx
        by_cases hxv : x = v
        · subst hxv
          exact hreach_v
        · dsimp only at hx
          rw [if_neg hxv] at hx
          exact hs.2.2.1 x hx
      · intro x u' hx
        by_cases hxv : x = v
        · subst hxv
          exact hreach_v
        · dsimp only at hx
          rw [if_neg hxv] at hx
          exact hs.2.2.2 x u' hx
    · exact ih (fun v' hv' => hvs v' (List.mem_cons_of_mem _ hv')) s hs

lemma dijkstraStep_dinv (g : Graph) (start_vertex e : Pt) (s s' : DState)
    (hs : DInv g start_vertex s) (h : dijkstraStep g e s = some s') :
    DInv g start_vertex s' := by
  unfold dijkstraStep at h
  cases hpop : popMin s.pq with
  | none =>
    rw [hpop] at h
    exact Option.noConfusion h
  | some pr =>
    obtain ⟨⟨d, u⟩, rest⟩ := pr
    rw [hpop] at h
    dsimp only at h
    obtain ⟨hm, hrest⟩ := popMin_mem s.pq (d, u) rest hpop
    have hsrest : DInv g start_vertex { s with pq := rest } :=
      ⟨fun p hp => hs.1 p (hrest p hp), fun p hp => hs.2.1 p (hrest p hp),
        hs.2.2.1, hs.2.2.2⟩
    split_ifs at h with hue hgt
    all_goals first
      | exact Option.noConfusion h
      | (injection h with h'
         rw [← h']
         exact hsrest)
      | (injection h with h'
         rw [← h']
         obtain ⟨r, hr⟩ := hs.1 (d, u) hm
         have hle : s.dist u ≤ d := hs.2.1 (d, u) hm
         have hu_reach : Reachable g start_vertex u := by
           apply hs.2.2.1 u
           intro htop
           have hr' : d = (r : EReal) := hr
           rw [htop, hr'] at hle
           exact (lt_irrefl (⊤ : EReal)) (lt_of_le_of_lt hle (EReal.coe_lt_top r))
         exact relaxNeighbors_dinv g start_vertex u d ⟨r, hr⟩ hu_reach (g.adj u)
           (fun v hv => hv) _ hsrest)

lemma dijkstraRun_dinv (g : Graph) (start_vertex e : Pt) :
    ∀ (n : Nat) (s : DState), DInv g start_vertex s →
      DInv g start_vertex (dijkstraRun g e n s) := by
  intro n
  induction n with
  | zero => intro s hs; exact hs
  | succ n ih =>
    intro s hs
    rw [dijkstraRun]
    cases hstep : dijkstraStep g e s with
    | none => exact hs
    | some s' => exact ih s' (dijkstraStep_dinv g start_vertex e s s' hs hstep)

lemma initState_dinv (g : Graph) (start_vertex : Pt) :
    DInv g start_vertex (initState start_vertex) := by
  refine ⟨?_, ?_, ?_, ?_⟩
  · intro p hp
    rcases List.mem_singleton.mp hp with rfl
    exact ⟨0, by simp⟩
  · intro p hp
    rcases List.mem_singleton.mp hp with rfl
    simp [initState]
  · intro v hv
    by_cases hvs : v = start_vertex
    · subst hvs
      exact Relation.ReflTransGen.refl
    · simp only [initState, if_neg hvs] at hv
      exact absurd rfl hv
  · intro v u hv
    simp [initState] at hv

/-- C9: when both endpoints are vertices but the end is not reachable from the
start, `dijkstra` returns `+infinity` paired with the single-vertex path
`[end]` (not the empty path): only reachable vertices ever receive a finite
distance or a predecessor, and the reconstruction always appends the end
vertex before following predecessor links. Proved for every loop fuel, hence
for the terminating run. -/
theorem dijkstra_unreachable_end (g : Graph) (s e : Pt)
    (hs : s ∈ g.verts) (he : e ∈ g.verts) (hur : ¬ Reachable g s e) :
    g.dijkstra s e = (⊤, [e]) := by
  unfold Graph.dijkstra dijkstraWithFuel
  rw [if_neg (by simp [hs, he])]
  have hinv := dijkstraRun_dinv g s e (loopFuel g) (initState s) (initState_dinv g s)
  have hdist : (dijkstraRun g e (loopFuel g) (initState s)).dist e = ⊤ := by
    by_contra hne
    exact hur (hinv.2.2.1 e hne)
  have hprev : (dijkstraRun g e (loopFuel g) (initState s)).prev e = none := by
    cases hp : (dijkstraRun g e (loopFuel g) (initState s)).prev e with
    | none => rfl
    | some u => exact absurd (hinv.2.2.2 e u hp) hur
  simp only [buildPath, hdist, hprev, List.reverse_cons, List.reverse_nil,
    List.nil_append]

/-- C9 witness: a two-vertex graph with no edges, queried between its two
vertices. -/
theorem dijkstra_unreachable_end_witness :
    (add_vertex (add_vertex Graph.empty ((0 : ℝ), (0 : ℝ))) ((1 : ℝ), (1 : ℝ))).dijkstra
      (0, 0) (1, 1) = (⊤, [(1, 1)]) := by
  have hverts : (add_vertex (add_vertex Graph.empty ((0 : ℝ), (0 : ℝ)))
      ((1 : ℝ), (1 : ℝ))).verts = [(0, 0), (1, 1)] := by
    simp [add_vertex, Graph.empty, Prod.ext_iff]
  have hadj : ∀ u, (add_vertex (add_vertex Graph.empty ((0 : ℝ), (0 : ℝ)))
      ((1 : ℝ), (1 : ℝ))).adj u = [] := by
    intro u
    rw [adj_add_vertex, adj_add_vertex]
    rfl
  apply dijkstra_unreachable_end
  · rw [hverts]
    exact List.mem_cons_self _ _
  · rw [hverts]
    exact List.mem_cons_of_mem _ (List.mem_singleton_self _)
  · intro hreach
    rcases Relation.ReflTransGen.cases_head hreach with heq | ⟨c, hc, -⟩
    · rw [Prod.ext_iff] at heq
      exact absurd heq.1 (by norm_num)
    · rw [Adj, hadj] at hc
      exact List.not_mem_nil c hc

lemma calculate_distance_self (a b : ℝ) : calculate_distance a b a b = 0 := by
  unfold calculate_distance atan2
  simp only [sub_self, zero_div, Real.sin_zero, ne_eq, OfNat.ofNat_ne_zero,
    not_false_eq_true, zero_pow, mul_zero, add_zero, zero_add, Real.sqrt_zero,
    sub_zero, Real.sqrt_one]
  have h1 : (⟨1, 0⟩ : ℂ) = 1 := by
    rw [Complex.ext_iff]
    simp
  rw [h1, Complex.arg_one]
  ring

lemma calculate_distance_nonneg (lat1 lon1 lat2 lon2 : ℝ) :
    0 ≤ calculate_distance lat1 lon1 lat2 lon2 := by
  unfold calculate_distance atan2
  refine mul_nonneg (by norm_num) (mul_nonneg (by norm_num) ?_)
  exact Complex.arg_nonneg_iff.mpr (Real.sqrt_nonneg _)

lemma calculate_distance_0_90_pos : 0 < calculate_distance 0 0 0 90 := by
  unfold calculate_distance atan2 radians
  simp only [zero_mul, sub_zero, sub_self, zero_div, Real.sin_zero, Real.cos_zero,
    one_mul, ne_eq, OfNat.ofNat_ne_zero, not_false_eq_true, zero_pow, zero_add]
  have h90 : (90 : ℝ) * (Real.pi / 180) / 2 = Real.pi / 4 := by ring
  have hsq2 : ((Real.sqrt 2 / 2) ^ 2 : ℝ) = 1 / 2 := by
    rw [div_pow, Real.sq_sqrt (by norm_num : (0 : ℝ) ≤ 2)]
    norm_num
  have hhalf : (1 : ℝ) - 1 / 2 = 1 / 2 := by norm_num
  rw [h90, Real.sin_pi_div_four, hsq2, hhalf]
  have hsq : (0 : ℝ) < Real.sqrt (1 / 2) := Real.sqrt_pos.mpr (by norm_num)
  have hz : (⟨Real.sqrt (1 / 2), Real.sqrt (1 / 2)⟩ : ℂ) ≠ 0 := by
    intro h
    rw [Complex.ext_iff] at h
    simp only [Complex.zero_re, Complex.zero_im] at h
    exact absurd h.1 (ne_of_gt hsq)
  have harg : 0 < Complex.arg ⟨Real.sqrt (1 / 2), Real.sqrt (1 / 2)⟩ := by
    rw [Complex.arg_of_re_nonneg (le_of_lt hsq)]
    apply Real.arcsin_pos.mpr
    apply div_pos hsq
    exact AbsoluteValue.pos Complex.abs hz
  positivity

lemma selectFold_le : ∀ (cs : List (Cab × ℝ)) (acc : Option Cab × EReal),
    (cs.foldl selectStep acc).2 ≤ acc.2 ∧
      ∀ p ∈ cs, (cs.foldl selectStep acc).2 ≤ ((p.2 : ℝ) : EReal) := by
  intro cs
  induction cs with
  | nil =>
    intro acc
    exact ⟨le_refl _, by intro p hp; simp at hp⟩
  | cons c rest ih =>
    intro acc
    rw [List.foldl_cons]
    have hstep_le : (selectStep acc c).2 ≤ acc.2 := by
      unfold selectStep
      split_ifs with h
      · exact le_of_lt h
      · exact le_refl _
    have hstep_c : (selectStep acc c).2 ≤ ((c.2 : ℝ) : EReal) := by
      unfold selectStep
      split_ifs with h
      · exact le_refl _
      · exact le_of_not_lt h
    refine ⟨le_trans (ih (selectStep acc c)).1 hstep_le, ?_⟩
    intro p hp
    rcases List.mem_cons.mp hp with heq | hp'
    · rw [heq]
      exact le_trans (ih (selectStep acc c)).1 hstep_c
    · exact (ih (selectStep acc c)).2 p hp'

lemma selectFold_provenance : ∀ (cs : List (Cab × ℝ)) (acc : Option Cab × EReal),
    cs.foldl selectStep acc = acc ∨
      ∃ p ∈ cs, cs.foldl selectStep acc = (some p.1, ((p.2 : ℝ) : EReal)) := by
  intro cs
  induction cs with
  | nil => intro acc; exact Or.inl rfl
  | cons c rest ih =>
    intro acc
    rw [List.foldl_cons]
    by_cases hc : ((c.2 : ℝ) : EReal) < acc.2
    · have hstep : selectStep acc c = (some c.1, ((c.2 : ℝ) : EReal)) := by
        unfold selectStep
        rw [if_pos hc]
      rw [hstep]
      rcases ih (some c.1, ((c.2 : ℝ) : EReal)) with heq | ⟨p, hp, heq⟩
      · exact Or.inr ⟨c, List.mem_cons_self c rest, heq⟩
      · exact Or.inr ⟨p, List.mem_cons_of_mem c hp, heq⟩
    · have hstep : selectStep acc c = acc := by
        unfold selectStep
        rw [if_neg hc]
      rw [hstep]
      rcases ih acc with heq | ⟨p, hp, heq⟩
      · exact Or.inl heq
      · exact Or.inr ⟨p, List.mem_cons_of_mem c hp, heq⟩

lemma selectFold_keeps_some : ∀ (cs : List (Cab × ℝ)) (c : Cab) (r : ℝ),
    ∃ c' r', cs.foldl selectStep (some c, ((r : ℝ) : EReal))
      = (some c', ((r' : ℝ) : EReal)) := by
  intro cs
  induction cs with
  | nil => intro c r; exact ⟨c, r, rfl⟩
  | cons p rest ih =>
    intro c r
    rw [List.foldl_cons]
    unfold selectStep
    split_ifs with h
    · exact ih p.1 p.2
    · exact ih c r

lemma selectBest_cons (p : Cab × ℝ) (cs : List (Cab × ℝ)) :
    ∃ c r, selectBest (p :: cs) = (some c, ((r : ℝ) : EReal)) := by
  unfold selectBest
  rw [List.foldl_cons, show selectStep (none, ⊤) p = (some p.1, ((p.2 : ℝ) : EReal)) by
    unfold selectStep
    rw [if_pos (EReal.coe_lt_top p.2)]]
  obtain ⟨c', r', hrun⟩ := selectFold_keeps_some cs p.1 p.2
  rw [hrun]
  exact ⟨c', r', rfl⟩

lemma selectBest_eq_none_iff (cs : List (Cab × ℝ)) :
    selectBest cs = (none, ⊤) ↔ cs = [] := by
  cases cs with
  | nil => exact iff_of_true rfl rfl
  | cons p rest =>
    obtain ⟨c, r, hsel⟩ := selectBest_cons p rest
    rw [hsel]
    constructor
    · intro h
      exact Option.noConfusion (congrArg Prod.fst h)
    · intro h
      exact List.noConfusion h

lemma selectBest_le (cs : List (Cab × ℝ)) (p : Cab × ℝ) (hp : p ∈ cs) :
    (selectBest cs).2 ≤ ((p.2 : ℝ) : EReal) := by
  cases cs with
  | nil => simp at hp
  | cons q rest =>
    unfold selectBest
    dsimp only
    have hfirst : selectStep (none, ⊤) q = (some q.1, ((q.2 : ℝ) : EReal)) := by
      unfold selectStep
      rw [if_pos (EReal.coe_lt_top q.2)]
    have hle := (selectFold_le (q :: rest) (none, ⊤)).2 p hp
    rw [List.foldl_cons, hfirst] at hle ⊢
    obtain ⟨c', r', hrun⟩ := selectFold_keeps_some rest q.1 q.2
    rw [hrun] at hle ⊢
    exact hle

lemma sharedStep_eq (rides : List Ride) (us_lat us_lon ue_lat ue_lon factor : ℝ)
    (acc : Option Cab × EReal) (cab : Cab) :
    sharedStep rides us_lat us_lon ue_lat ue_lon factor
        (calculate_distance us_lat us_lon ue_lat ue_lon) acc cab
      = match candidateCost rides us_lat us_lon ue_lat ue_lon factor cab with
        | none => acc
        | some d => selectStep acc (cab, d) := by
  unfold sharedStep candidateCost selectStep
  by_cases h1 : cab.status = "Available"
  · rw [if_pos h1, if_pos h1]
  · rw [if_neg h1, if_neg h1]
    by_cases h2 : cab.status = "Busy" ∨ cab.status = "Shared"
    · rw [if_pos h2, if_pos h2]
      cases hf : rides.find? (fun r => r.cab_id == cab.cab_id) with
      | none => rfl
      | some ride =>
        dsimp only
        by_cases hc1 : combinedRouteCost cab ride us_lat us_lon ue_lat ue_lon <
            origSoloCost cab ride * ((factor : ℝ) : EReal)
        · rw [if_pos hc1, if_pos hc1]
          by_cases hc2 : newUserTripInSharedCab us_lat us_lon ue_lat ue_lon <
              calculate_distance us_lat us_lon ue_lat ue_lon * factor
          · rw [if_pos hc2, if_pos hc2]
          · rw [if_neg hc2, if_neg hc2]
        · rw [if_neg hc1, if_neg hc1]
    · rw [if_neg h2, if_neg h2]

lemma sharedFold_eq (rides : List Ride) (us_lat us_lon ue_lat ue_lon factor : ℝ) :
    ∀ (cabs : List Cab) (acc : Option Cab × EReal),
      cabs.foldl
          (sharedStep rides us_lat us_lon ue_lat ue_lon factor
            (calculate_distance us_lat us_lon ue_lat ue_lon)) acc
        = (sharedCandidates cabs rides us_lat us_lon ue_lat ue_lon factor).foldl
            selectStep acc := by
  intro cabs
  induction cabs with
  | nil => intro acc; rfl
  | cons c rest ih =>
    intro acc
    rw [List.foldl_cons, sharedStep_eq]
    unfold sharedCandidates
    rw [List.filterMap_cons]
    cases hc : candidateCost rides us_lat us_lon ue_lat ue_lon factor c with
    | none =>
      dsimp only
      exact ih acc
    | some d =>
      simp only [Option.map_some']
      rw [List.foldl_cons]
      exact ih (selectStep acc (c, d))

lemma find_shared_cab_eq (cabs : List Cab) (rides : List Ride)
    (us_lat us_lon ue_lat ue_lon factor : ℝ) :
    find_shared_cab cabs rides us_lat us_lon ue_lat ue_lon factor
      = selectBest (sharedCandidates cabs rides us_lat us_lon ue_lat ue_lon factor) := by
  simp only [find_shared_cab, selectBest]
  rw [sharedFold_eq]

lemma candidateCost_none_iff (rides : List Ride)
    (us_lat us_lon ue_lat ue_lon factor : ℝ) (cab : Cab) :
    candidateCost rides us_lat us_lon ue_lat ue_lon factor cab = none ↔
      cab.status ≠ "Available" ∧ ((cab.status = "Busy" ∨ cab.status = "Shared") →
        ¬ busyAccepted rides us_lat us_lon ue_lat ue_lon factor cab) := by
  unfold candidateCost busyAccepted
  by_cases h1 : cab.status = "Available"
  · rw [if_pos h1]
    constructor
    · intro habs
      exact Option.noConfusion habs
    · rintro ⟨hna, -⟩
      exact absurd h1 hna
  · rw [if_neg h1]
    by_cases h2 : cab.status = "Busy" ∨ cab.status = "Shared"
    · rw [if_pos h2]
      cases hf : rides.find? (fun r => r.cab_id == cab.cab_id) with
      | none =>
        dsimp only
        refine iff_of_true rfl ⟨h1, fun _ habs => ?_⟩
        obtain ⟨ride, hr, -, -⟩ := habs
        exact Option.noConfusion hr
      | some ride =>
        dsimp only
        by_cases hc1 : combinedRouteCost cab ride us_lat us_lon ue_lat ue_lon <
            origSoloCost cab ride * ((factor : ℝ) : EReal)
        · rw [if_pos hc1]
          by_cases hc2 : newUserTripInSharedCab us_lat us_lon ue_lat ue_lon <
              calculate_distance us_lat us_lon ue_lat ue_lon * factor
          · rw [if_pos hc2]
            constructor
            · intro habs
              exact Option.noConfusion habs
            · rintro ⟨-, hb⟩
              exact absurd ⟨ride, rfl, hc1, hc2⟩ (hb h2)
          · rw [if_neg hc2]
            refine iff_of_true rfl ⟨h1, fun _ habs => ?_⟩
            obtain ⟨ride', hr, -, hrc2⟩ := habs
            exact hc2 hrc2
        · rw [if_neg hc1]
          refine iff_of_true rfl ⟨h1, fun _ habs => ?_⟩
          obtain ⟨ride', hr, hrc1, -⟩ := habs
          rw [Option.some.injEq] at hr
          rw [← hr] at hrc1
          exact hc1 hrc1
    · rw [if_neg h2]
      exact iff_of_true rfl ⟨h1, fun hb => absurd hb h2⟩

lemma find_shared_chosen (cabs : List Cab) (rides : List Ride)
    (us_lat us_lon ue_lat ue_lon factor : ℝ) (cab : Cab)
    (h : (find_shared_cab cabs rides us_lat us_lon ue_lat ue_lon factor).1 = some cab) :
    ∃ d : ℝ, candidateCost rides us_lat us_lon ue_lat ue_lon factor cab = some d ∧
      (find_shared_cab cabs rides us_lat us_lon ue_lat ue_lon factor).2
        = ((d : ℝ) : EReal) := by
  rw [find_shared_cab_eq] at h ⊢
  unfold selectBest at h ⊢
  rcases selectFold_provenance
      (sharedCandidates cabs rides us_lat us_lon ue_lat ue_lon factor) (none, ⊤)
    with heq | ⟨p, hp, heq⟩
  · rw [heq] at h
    exact Option.noConfusion h
  · rw [heq] at h ⊢
    dsimp only at h ⊢
    rw [Option.some.injEq] at h
    obtain ⟨cab', hmem, hmap⟩ := List.mem_filterMap.mp hp
    rw [Option.map_eq_some'] at hmap
    obtain ⟨d, hd, hpd⟩ := hmap
    refine ⟨d, ?_, ?_⟩
    · rw [← h, ← hpd]
      exact hd
    · rw [← hpd]

lemma find_shared_min (cabs : List Cab) (rides : List Ride)
    (us_lat us_lon ue_lat ue_lon factor : ℝ) (cab : Cab) (d : ℝ)
    (hc : cab ∈ cabs)
    (hcost : candidateCost rides us_lat us_lon ue_lat ue_lon factor cab = some d) :
    (find_shared_cab cabs rides us_lat us_lon ue_lat ue_lon factor).2
      ≤ ((d : ℝ) : EReal) := by
  rw [find_shared_cab_eq]
  have hmem : (cab, d) ∈ sharedCandidates cabs rides us_lat us_lon ue_lat ue_lon factor :=
    List.mem_filterMap.mpr ⟨cab, hc, by rw [hcost]; rfl⟩
  exact selectBest_le _ (cab, d) hmem

/-- C5: `find_shared_cab` returns `(None, inf)` exactly when no cab is
`Available` and no `Busy`/`Shared` cab passes the detour acceptance test;
otherwise it returns some cab together with a finite distance. -/
theorem find_shared_cab_no_capacity :
    ∀ (cabs : List Cab) (active_rides : List Ride)
      (us_lat us_lon ue_lat ue_lon factor : ℝ),
      (find_shared_cab cabs active_rides us_lat us_lon ue_lat ue_lon factor
          = (none, ⊤) ↔
        (∀ cab ∈ cabs, cab.status ≠ "Available") ∧
        (∀ cab ∈ cabs, (cab.status = "Busy" ∨ cab.status = "Shared") →
          ¬ busyAccepted active_rides us_lat us_lon ue_lat ue_lon factor cab)) ∧
      (find_shared_cab cabs active_rides us_lat us_lon ue_lat ue_lon factor
          = (none, ⊤) ∨
        ∃ (cab : Cab) (d : ℝ),
          find_shared_cab cabs active_rides us_lat us_lon ue_lat ue_lon factor
            = (some cab, ((d : ℝ) : EReal))) := by
  intro cabs rides us_lat us_lon ue_lat ue_lon factor
  rw [find_shared_cab_eq]
  have hcand : sharedCandidates cabs rides us_lat us_lon ue_lat ue_lon factor = [] ↔
      ∀ cab ∈ cabs, candidateCost rides us_lat us_lon ue_lat ue_lon factor cab = none := by
    unfold sharedCandidates
    rw [List.filterMap_eq_nil]
    constructor
    · intro h cab hc
      exact Option.map_eq_none'.mp (h cab hc)
    · intro h cab hc
      rw [h cab hc]
      rfl
  constructor
  · rw [selectBest_eq_none_iff, hcand]
    constructor
    · intro h
      constructor
      · intro cab hc
        exact ((candidateCost_none_iff rides us_lat us_lon ue_lat ue_lon factor cab).mp
          (h cab hc)).1
      · intro cab hc
        exact ((candidateCost_none_iff rides us_lat us_lon ue_lat ue_lon factor cab).mp
          (h cab hc)).2
    · rintro ⟨ha, hb⟩ cab hc
      exact (candidateCost_none_iff rides us_lat us_lon ue_lat ue_lon factor cab).mpr
        ⟨ha cab hc, hb cab hc⟩
  · cases hcands : sharedCandidates cabs rides us_lat us_lon ue_lat ue_lon factor with
    | nil =>
      left
      rfl
    | cons p rest =>
      right
      obtain ⟨c, r, hsel⟩ := selectBest_cons p rest
      exact ⟨c, r, hsel⟩

/-- C3: a `Busy`/`Shared` cab that fails either detour condition for its
active ride — the combined route does not beat `maxDetourFactor` times the
existing passenger's solo cost, or the new rider's in-shared-cab trip does not
beat `maxDetourFactor` times their direct distance — is never returned as the
chosen vehicle. (The code accepts only on strict `<`, so failing the claim's
`≤` bound is a special case of the hypothesis.) -/
theorem busy_cab_failing_detour_not_chosen :
    ∀ (cabs : List Cab) (active_rides : List Ride)
      (us_lat us_lon ue_lat ue_lon factor : ℝ) (cab : Cab),
      (cab.status = "Busy" ∨ cab.status = "Shared") →
      (∀ ride, active_rides.find? (fun r => r.cab_id == cab.cab_id) = some ride →
        origSoloCost cab ride * ((factor : ℝ) : EReal) ≤
          combinedRouteCost cab ride us_lat us_lon ue_lat ue_lon ∨
        calculate_distance us_lat us_lon ue_lat ue_lon * factor ≤
          newUserTripInSharedCab us_lat us_lon ue_lat ue_lon) →
      (find_shared_cab cabs active_rides us_lat us_lon ue_lat ue_lon factor).1
        ≠ some cab := by
  intro cabs rides us_lat us_lon ue_lat ue_lon factor cab hb hfail h
  obtain ⟨d, hcost, -⟩ :=
    find_shared_chosen cabs rides us_lat us_lon ue_lat ue_lon factor cab h
  have hna : cab.status ≠ "Available" := by
    rcases hb with hb | hb <;> rw [hb] <;> decide
  unfold candidateCost at hcost
  rw [if_neg hna, if_pos hb] at hcost
  cases hf : rides.find? (fun r => r.cab_id == cab.cab_id) with
  | none =>
    rw [hf] at hcost
    exact Option.noConfusion hcost
  | some ride =>
    rw [hf] at hcost
    dsimp only at hcost
    rcases hfail ride hf with hle | hle
    · rw [if_neg (not_lt_of_le hle)] at hcost
      exact Option.noConfusion hcost
    · by_cases hc1 : combinedRouteCost cab ride us_lat us_lon ue_lat ue_lon <
          origSoloCost cab ride * ((factor : ℝ) : EReal)
      · rw [if_pos hc1, if_neg (not_lt_of_le hle)] at hcost
        exact Option.noConfusion hcost
      · rw [if_neg hc1] at hcost
        exact Option.noConfusion hcost

/-- C3 witness: a busy cab sitting exactly at its passenger's drop-off and at
the new rider's pickup; its solo cost is 0, so the combined route (the rider's
direct distance) cannot beat `0 * 1.5`, and the cab is not chosen. -/
theorem busy_cab_failing_detour_not_chosen_witness :
    (find_shared_cab [⟨1, "c", 0, 0, "Busy"⟩] [⟨1, 0, 0, 0, 0⟩] 0 0 0 90 1.5).1
      ≠ some ⟨1, "c", 0, 0, "Busy"⟩ := by
  apply busy_cab_failing_detour_not_chosen
  · exact Or.inl rfl
  · intro ride hf
    left
    have hfind : ([⟨1, 0, 0, 0, 0⟩] : List Ride).find?
        (fun r => r.cab_id == (⟨1, "c", 0, 0, "Busy"⟩ : Cab).cab_id)
        = some ⟨1, 0, 0, 0, 0⟩ := rfl
    rw [hfind, Option.some.injEq] at hf
    rw [← hf]
    unfold origSoloCost combinedRouteCost
    dsimp only
    rw [find_shortest_path_self_aux 0 0 0.01 0.01 0.05]
    dsimp only
    rw [zero_mul]
    have h1 : ((0 : EReal)) ≤ ((calculate_distance 0 0 0 0 : ℝ) : EReal) := by
      exact_mod_cast calculate_distance_nonneg 0 0 0 0
    have h2 : ((0 : EReal)) ≤ ((calculate_distance 0 0 0 90 : ℝ) : EReal) := by
      exact_mod_cast calculate_distance_nonneg 0 0 0 90
    apply le_min
    · exact add_nonneg (add_nonneg le_rfl h1) h2
    · exact add_nonneg (add_nonneg le_rfl h1) h2

/-- C4 (amended): `find_shared_cab` minimizes the candidate cost — pickup
plus the rider's direct distance for an `Available` cab, the new rider's
pickup leg for an accepted `Busy`/`Shared` cab — keeping the first strict
minimum; the value returned alongside the chosen vehicle is that vehicle's
candidate cost (so it is the pickup-leg distance only when the chosen vehicle
is a `Busy`/`Shared` one). -/
theorem find_shared_cab_value_minimal :
    ∀ (cabs : List Cab) (active_rides : List Ride)
      (us_lat us_lon ue_lat ue_lon factor : ℝ),
      find_shared_cab cabs active_rides us_lat us_lon ue_lat ue_lon factor
        = selectBest (sharedCandidates cabs active_rides us_lat us_lon ue_lat ue_lon
            factor) ∧
      (∀ cab ∈ cabs, ∀ d : ℝ,
        candidateCost active_rides us_lat us_lon ue_lat ue_lon factor cab = some d →
        (find_shared_cab cabs active_rides us_lat us_lon ue_lat ue_lon factor).2
          ≤ ((d : ℝ) : EReal)) ∧
      (∀ cab : Cab,
        (find_shared_cab cabs active_rides us_lat us_lon ue_lat ue_lon factor).1
            = some cab →
        ∃ d : ℝ,
          candidateCost active_rides us_lat us_lon ue_lat ue_lon factor cab = some d ∧
          (find_shared_cab cabs active_rides us_lat us_lon ue_lat ue_lon factor).2
            = ((d : ℝ) : EReal)) := by
  intro cabs rides us_lat us_lon ue_lat ue_lon factor
  refine ⟨find_shared_cab_eq cabs rides us_lat us_lon ue_lat ue_lon factor, ?_, ?_⟩
  · intro cab hc d hcost
    exact find_shared_min cabs rides us_lat us_lon ue_lat ue_lon factor cab d hc hcost
  · intro cab h
    exact find_shared_chosen cabs rides us_lat us_lon ue_lat ue_lon factor cab h

/-- C4 counterexample to the claim as stated: an `Available` cab at the
rider's start is chosen, and the value returned is its pickup distance plus
the rider's direct distance — not the pickup-leg distance (which is 0 here). -/
theorem find_shared_cab_value_not_pickup_cex :
    find_shared_cab [⟨1, "c", 0, 0, "Available"⟩] [] 0 0 0 90 1.5
        = (some ⟨1, "c", 0, 0, "Available"⟩,
          ((calculate_distance 0 0 0 0 + calculate_distance 0 0 0 90 : ℝ) : EReal)) ∧
      ((calculate_distance 0 0 0 0 + calculate_distance 0 0 0 90 : ℝ) : EReal)
        ≠ ((calculate_distance 0 0 0 0 : ℝ) : EReal) := by
  constructor
  · simp only [find_shared_cab, List.foldl_cons, List.foldl_nil, sharedStep]
    dsimp only
    rw [if_pos (trivial : True), if_pos (EReal.coe_lt_top _)]
  · intro habs
    rw [calculate_distance_self, zero_add] at habs
    exact absurd (EReal.coe_eq_coe_iff.mp habs)
      (ne_of_gt calculate_distance_0_90_pos)

/-- C10: a broadcast pass delivers to exactly the subscribers that are neither
closed nor failing, removes exactly the closed/failing ones from the live set,
and never raises (it is a total function); in the spec's scenario, publishing
to three subscribers of which one is closed removes exactly that one and
delivers to the other two. -/
theorem broadcast_isolates_failed_subscribers :
    (∀ clients : List Client,
        (broadcast_to_all clients).1 = clients.filter Client.good ∧
        (broadcast_to_all clients).2 = (clients.filter Client.good).map Client.id ∧
        (∀ c ∈ clients, Client.good c = true → c.id ∈ (broadcast_to_all clients).2)) ∧
      broadcast_to_all [⟨1, false, false⟩, ⟨2, true, false⟩, ⟨3, false, false⟩]
        = ([⟨1, false, false⟩, ⟨3, false, false⟩], [1, 3]) := by
  constructor
  · intro clients
    have h : broadcast_to_all clients
        = (clients.diff (clients.filter fun c => !(Client.good c)),
            (clients.filter Client.good).map Client.id) := by
      unfold broadcast_to_all
      rw [broadcast_fold clients clients []]
      simp
    have h1 : (broadcast_to_all clients).1 = clients.filter Client.good := by
      rw [h]
      simpa using diff_filter_self (fun c => !(Client.good c)) clients
    have h2 : (broadcast_to_all clients).2 = (clients.filter Client.good).map Client.id := by
      rw [h]
    refine ⟨h1, h2, ?_⟩
    intro c hc hg
    rw [h2]
    exact List.mem_map_of_mem Client.id (List.mem_filter.mpr ⟨hc, hg⟩)
  · rfl

end CabSystem
